import Mathlib

/-!
Verification development for the `cf-ai-web-security-header-explainer` worker.

The definitions below are a shallow embedding of the TypeScript sources:
  * `src/workers/utils.ts`       — URL normalization, cache keys, asset / bot /
    CDN classification and the smart-fallback fetch (`fetchWithSmartFallback`);
  * `src/workers/header-processor.ts` — cookie statistics and header metadata;
  * `src/workers/analyzer.ts`    — the structured-output recovery parser that
    turns raw model text into a validated analysis object.

Strings are modelled as `List Char` internally.  JavaScript's builtin
`JSON.parse` / `JSON.stringify` are modelled by an executable recursive-descent
parser and printer over a `Json` value type; JSON numbers are modelled as
integers (no claim exercises fractional or exponent number forms), and the
parser distinguishes the one error class the source inspects: the
"bad control character in string literal" failure.
-/

set_option maxRecDepth 100000
set_option maxHeartbeats 2000000

/-! ### Basic character/string helpers (JS semantics) -/

/-- Whitespace recognised by JavaScript `String.prototype.trim` (the code
points that occur in practice; exotic Unicode space separators are omitted,
no claim depends on them). -/
def isJsWs (c : Char) : Bool :=
  c = ' ' || c = '\t' || c = '\n' || c = '\r' || c = '\x0b' || c = '\x0c' || c = ' '

def trimLeftL (l : List Char) : List Char := l.dropWhile isJsWs

def trimRightL (l : List Char) : List Char := l.rdropWhile isJsWs

/-- JavaScript `s.trim()` on a character list. -/
def jsTrim (l : List Char) : List Char := trimRightL (trimLeftL l)

def toLowerL (l : List Char) : List Char := l.map Char.toLower

def lowerS (s : String) : String := ⟨toLowerL s.data⟩

/-- `p` occurs at the start of `l` (JS `startsWith`). -/
def startsL (l p : List Char) : Bool := p.isPrefixOf l

/-- `p` occurs at the end of `l` (JS `endsWith`). -/
def endsL (l p : List Char) : Bool := p.isSuffixOf l

/-- JS `String.prototype.includes`: `pat` occurs somewhere in the list. -/
def includesSub (pat : List Char) : List Char → Bool
  | [] => pat.isPrefixOf ([] : List Char)
  | c :: t => pat.isPrefixOf (c :: t) || includesSub pat t

/-- JS object property update: overwrite in place if the key exists, else
append (JS objects keep first-insertion order on overwrite). -/
def setKeyS : List (String × String) → String → String → List (String × String)
  | [], k, v => [(k, v)]
  | (k', v') :: rest, k, v =>
    if k' = k then (k', v) :: rest else (k', v') :: setKeyS rest k v

/-- JS object property read. -/
def lookupS (obj : List (String × String)) (k : String) : Option String :=
  List.lookup k obj

/-! ### `src/workers/utils.ts` -/

/-- `normalizeUrl`'s first check: `trimmed.match(/^https?:\/\//i)`. -/
def matchesHttpScheme (l : List Char) : Bool :=
  toLowerL (l.take 7) == "http://".data || toLowerL (l.take 8) == "https://".data

/-- Character class `[a-zA-Z0-9-]` of the bare-domain pattern. -/
def isDomainChar (c : Char) : Bool := c.isAlphanum || c = '-'

/-- `normalizeUrl`'s bare-domain pattern `/^[a-zA-Z0-9-]+\.[a-zA-Z]{2,}(\/.*)?$/`
(the character classes are disjoint from the separators, so the backtracking
regex is equivalent to this maximal-munch scan). -/
def bareDomainTest (l : List Char) : Bool :=
  let r1 := l.takeWhile isDomainChar
  let rest1 := l.drop r1.length
  if r1.isEmpty then false
  else
    match rest1 with
    | '.' :: rest2 =>
      let r2 := rest2.takeWhile Char.isAlpha
      let rest3 := rest2.drop r2.length
      if r2.length < 2 then false
      else
        match rest3 with
        | [] => true
        | '/' :: _ => true
        | _ => false
    | _ => false

/-- `normalizeUrl` from `utils.ts` lines 56-72. -/
def normalizeUrl (url : String) : String :=
  let trimmed := jsTrim url.data
  if matchesHttpScheme trimmed then ⟨trimmed⟩
  else
    let t2 :=
      if bareDomainTest trimmed && !startsL trimmed "www.".data
      then "www.".data ++ trimmed else trimmed
    ⟨"https://".data ++ t2⟩

/-- `getCacheKey` from `utils.ts` lines 93-95. -/
def getCacheKey (url : String) : String :=
  "header-analysis:" ++ normalizeUrl url

/-- `headersToObject`: lower-cases every key and stores into a JS object
(later duplicates overwrite, keeping first-insertion position). -/
def headersToObject (hs : List (String × String)) : List (String × String) :=
  hs.foldl (fun acc kv => setKeyS acc (lowerS kv.1) kv.2) []

/-- The parsed-URL fields `fetchWithSmartFallback` consults. -/
structure UrlParts where
  protocol : String
  pathname : String

/-- The asset-extension list of `isAssetURL` (`utils.ts` lines 98-115). -/
def assetExtensions : List String :=
  [".png", ".jpg", ".jpeg", ".gif", ".webp", ".svg", ".ico", ".css", ".js",
   ".json", ".xml", ".pdf", ".woff", ".woff2", ".ttf", ".eot"]

/-- `isAssetURL` (`utils.ts` lines 97-123): first extension in list order that
the lower-cased pathname ends with. -/
def isAssetURL (url : UrlParts) : Option String :=
  let pathname := toLowerL url.pathname.data
  assetExtensions.findSome? fun ext =>
    if endsL pathname ext.data then some ext else none

/-- JS truthiness of an optional header value (`undefined` and `""` are falsy). -/
def truthyHeader : Option String → Bool
  | none => false
  | some v => v ≠ ""

/-- `isBotProtectionResponse` (`utils.ts` lines 125-149). -/
def isBotProtectionResponse (headers : List (String × String)) (statusCode : Nat) :
    Option String :=
  if ((lookupS headers "server").map lowerS == some "cloudflare") &&
      truthyHeader (lookupS headers "cf-chl-bypass") then
    some "Cloudflare Challenge"
  else if statusCode = 429 then
    some "Rate Limited (429)"
  else if statusCode = 503 then
    some "Service Unavailable (503) - Possible WAF/bot protection"
  else if (match lookupS headers "server" with
           | some s => includesSub "akamaighost".data (toLowerL s.data)
           | none => false) then
    some "Akamai Bot Protection"
  else none

/-- The response data of one HEAD probe (`fetch` result), as far as the
classifier consults it. -/
structure ProbeResponse where
  status : Nat
  statusText : String
  headers : List (String × String)
deriving DecidableEq

/-- `headers["content-type"] || null` (empty string is falsy). -/
def contentTypeOf (obj : List (String × String)) : Option String :=
  match lookupS obj "content-type" with
  | some v => if v = "" then none else some v
  | none => none

/-- The six-way result union of `fetchWithSmartFallback` (`utils.ts` lines
6-54), one constructor per variant. -/
inductive FetchResult where
  | httpOnly (message : String)
  | asset (extension message : String)
  | non200 (statusCode : Nat) (statusText message : String)
  | botProtection (detectedType message : String)
  | cdn (detectedServer : String) (headerCount : Nat) (message : String)
  | usable (headers : List (String × String)) (contentType : Option String)
deriving DecidableEq

def httpOnlyMessage : String :=
  "This site is using HTTP instead of HTTPS. All modern websites should migrate to HTTPS for security. HTTP traffic is unencrypted and vulnerable to man-in-the-middle attacks."

def assetMessage (ext : String) : String :=
  "This appears to be a direct link to an asset file (" ++ ext ++ "). Security headers are typically analyzed for HTML pages, not individual assets. Please enter a page URL instead."

def non200Message (status : Nat) (statusText : String) : String :=
  "Cannot reliably analyze this URL (HTTP " ++ toString status ++ " " ++ statusText ++ "). The server returned a non-success response. This could be a redirect, error page, or access restriction. Try a different URL or page."

def botMessage (t : String) : String :=
  "This site is serving a challenge or bot protection page (" ++ t ++ "). The headers analyzed would be from the protection layer, not your actual site. This makes the analysis unreliable."

def nonHtmlMessage (ct : String) : String :=
  "This URL returns " ++ ct ++ " instead of HTML. Security header analysis is designed for web pages (text/html), not APIs or other content types. The scoring may not be meaningful."

def cdnMessage : String :=
  "Response appears to come from a CDN edge (e.g., Akamai) rather than an origin server. Try fetching a deeper path like /en-us/ or /home."

def sparseMessage : String :=
  "Header fetch returned too few headers (<5). Likely a CDN edge or static asset response. Try a deeper route manually."

/-- The fixed alternate-path list of the escalation loop (`utils.ts` line 238). -/
def altPaths : List String := ["/en-us/", "/index.html", "/home", "/about"]

/-- The escalation loop body (`utils.ts` lines 240-274): probe each candidate
path in order; a transport failure (`none`) is caught and skipped; the first
response with status 200 and at least 5 headers is returned. -/
def tryAltPaths (probe : String → Option ProbeResponse) :
    List String → Option (List (String × String) × Option String)
  | [] => none
  | p :: rest =>
    match probe p with
    | none => tryAltPaths probe rest
    | some r =>
      let retryHeaders := headersToObject r.headers
      if r.status = 200 && decide (5 ≤ retryHeaders.length) then
        some (retryHeaders, contentTypeOf retryHeaders)
      else tryAltPaths probe rest

/-- `utils.ts` lines 237-294: the sparse-header escalation and the final
`Usable` return. -/
def sparseOrUsable (probe : String → Option ProbeResponse)
    (headers : List (String × String)) (serverHeader : String)
    (contentType : Option String) : FetchResult :=
  if headers.length < 5 then
    match tryAltPaths probe altPaths with
    | some (hs, ct) => .usable hs ct
    | none =>
      .cdn (if serverHeader = "" then "unknown" else serverHeader)
        headers.length sparseMessage
  else .usable headers contentType

/-- The CDN-edge signature `/akamai|ghost|netstorage/.test(serverHeader)`
(`utils.ts` line 227). -/
def serverSigTest (serverHeader : String) : Bool :=
  includesSub "akamai".data serverHeader.data ||
    includesSub "ghost".data serverHeader.data ||
    includesSub "netstorage".data serverHeader.data

/-- `utils.ts` lines 227-294: the CDN-signature check followed by the sparse
check. -/
def cdnOrBelow (probe : String → Option ProbeResponse)
    (headers : List (String × String)) (serverHeader : String)
    (contentType : Option String) : FetchResult :=
  if serverSigTest serverHeader then
    .cdn serverHeader headers.length cdnMessage
  else sparseOrUsable probe headers serverHeader contentType

/-- `fetchWithSmartFallback` (`utils.ts` lines 151-295).  The first HEAD probe's
response is passed as `first` (a transport failure there propagates to the
caller and never produces a `FetchResult`); `probe` gives the responses of the
alternate-path probes (`none` = transport failure). -/
def fetchWithSmartFallback (url : UrlParts) (first : ProbeResponse)
    (probe : String → Option ProbeResponse) : FetchResult :=
  if url.protocol = "http:" then .httpOnly httpOnlyMessage
  else
    match isAssetURL url with
    | some ext => .asset ext (assetMessage ext)
    | none =>
      let headers := headersToObject first.headers
      let serverHeader := ((lookupS headers "server").map lowerS).getD ""
      let contentType := contentTypeOf headers
      if first.status ≠ 200 then
        .non200 first.status first.statusText
          (non200Message first.status first.statusText)
      else
        match isBotProtectionResponse headers first.status with
        | some t => .botProtection t (botMessage t)
        | none =>
          match contentType with
          | some ct =>
            if !includesSub "text/html".data ct.data &&
                !includesSub "application/xhtml".data ct.data then
              .non200 first.status ("Non-HTML Content (" ++ ct ++ ")")
                (nonHtmlMessage ct)
            else cdnOrBelow probe headers serverHeader contentType
          | none => cdnOrBelow probe headers serverHeader contentType

/-- The content-type gate of `utils.ts` lines 214-225 passes (no non-HTML
early return): either no content type, or one containing `text/html` or
`application/xhtml`. -/
def contentTypePasses : Option String → Bool
  | some ct =>
    !(!includesSub "text/html".data ct.data &&
      !includesSub "application/xhtml".data ct.data)
  | none => true

/-- Discriminator: is the classification outcome the bot-protection variant? -/
def isBotProtectionResult : FetchResult → Bool
  | .botProtection _ _ => true
  | _ => false

/-- Discriminator: is the classification outcome the asset variant? -/
def isAssetResult : FetchResult → Bool
  | .asset _ _ => true
  | _ => false

/-- One alternate-path attempt that the escalation loop rejects: a transport
failure, a non-200 status, or fewer than 5 headers. -/
def altAttemptFails : Option ProbeResponse → Bool
  | none => true
  | some r => !(r.status = 200 && decide (5 ≤ (headersToObject r.headers).length))

/-! ### `src/workers/header-processor.ts` -/

/-- Character class `[a-zA-Z0-9_-]` of the cookie-splitting lookahead. -/
def isCookieNameChar (c : Char) : Bool := c.isAlphanum || c = '_' || c = '-'

/-- The split point of `/,\s*(?=[a-zA-Z0-9_-]+=)/`: after the comma all
whitespace is consumed and the lookahead must see a nonempty name-character
run followed by `=` (the classes are disjoint from whitespace and `=`, so the
backtracking regex is equivalent to this maximal-munch scan). -/
def cookieSplitHere (rest : List Char) : Bool :=
  let t := rest.dropWhile isJsWs
  let run := t.takeWhile isCookieNameChar
  !run.isEmpty &&
    (match t.drop run.length with
     | '=' :: _ => true
     | _ => false)

/-- The scan of `setCookieHeader.split(/,\s*(?=[a-zA-Z0-9_-]+=)/)`: fragments
accumulate in `acc` (reversed); a matching separator ends the current fragment
and consumes the comma and the following whitespace. -/
def splitCookiesGo : List Char → List Char → List (List Char)
  | acc, [] => [acc.reverse]
  | acc, c :: rest =>
    if c = ',' && cookieSplitHere rest then
      acc.reverse :: splitCookiesGo [] (rest.dropWhile isJsWs)
    else splitCookiesGo (c :: acc) rest
termination_by _ l => l.length
decreasing_by
  · exact Nat.lt_succ_of_le (List.dropWhile_sublist _).length_le
  · exact Nat.lt_succ_self rest.length

structure CookieStats where
  total : Nat
  secure : Nat
  httpOnly : Nat
  sameSite : Nat
deriving DecidableEq

/-- `analyzeCookies` (`header-processor.ts` lines 20-49); an `undefined` or
`""` header value is falsy and yields all-zero stats; `.filter(Boolean)`
drops empty fragments. -/
def analyzeCookies : Option String → CookieStats
  | none => ⟨0, 0, 0, 0⟩
  | some h =>
    if h = "" then ⟨0, 0, 0, 0⟩
    else
      let cookies := (splitCookiesGo [] h.data).filter (· ≠ [])
      { total := cookies.length
        secure := cookies.countP (fun c => includesSub "secure".data (toLowerL c))
        httpOnly := cookies.countP (fun c => includesSub "httponly".data (toLowerL c))
        sameSite := cookies.countP (fun c => includesSub "samesite".data (toLowerL c)) }

structure HeaderMetadata where
  hasCsp : Bool
  hasCspReportOnly : Bool
  hasHsts : Bool
  cookieStats : CookieStats
deriving DecidableEq

/-- `preprocessHeaders` (`header-processor.ts` lines 51-69): the raw headers
unchanged, plus the derived metadata (`!!headers[...]` is JS truthiness). -/
def preprocessHeaders (headers : List (String × String)) :
    List (String × String) × HeaderMetadata :=
  (headers,
   { hasCsp := truthyHeader (lookupS headers "content-security-policy")
     hasCspReportOnly :=
       truthyHeader (lookupS headers "content-security-policy-report-only")
     hasHsts := truthyHeader (lookupS headers "strict-transport-security")
     cookieStats := analyzeCookies (lookupS headers "set-cookie") })

/-! ### A model of JavaScript JSON values, `JSON.stringify` and `JSON.parse`

`src/workers/analyzer.ts` manipulates parsed JSON through the JS builtins.
JSON numbers are modelled as integers: no claim exercises fractional or
exponent forms (every number the claims touch is an integer), and UTF-16
surrogate-pair escapes are out of scope likewise.  Objects are association
lists in property order; `JSON.parse` applies JS duplicate-key semantics
(first-occurrence position, last value). -/

inductive Json where
  | null
  | bool (b : Bool)
  | num (n : Int)
  | str (s : String)
  | arr (elems : List Json)
  | obj (fields : List (String × Json))

/-- The error classes of `JSON.parse` the source distinguishes
(`analyzer.ts` line 133 inspects the message for "control character" /
"Bad control"): a raw control character inside a string literal versus any
other syntax error. -/
inductive ParseErr where
  | controlChar
  | other
deriving DecidableEq

/-- Decimal digit character for `d < 10`. -/
def digitChar10 : Nat → Char
  | 0 => '0' | 1 => '1' | 2 => '2' | 3 => '3' | 4 => '4'
  | 5 => '5' | 6 => '6' | 7 => '7' | 8 => '8' | _ => '9'

/-- Lower-case hexadecimal digit character for `d < 16`. -/
def hexDigitChar (n : Nat) : Char :=
  if n < 10 then digitChar10 n
  else if n = 10 then 'a'
  else if n = 11 then 'b'
  else if n = 12 then 'c'
  else if n = 13 then 'd'
  else if n = 14 then 'e'
  else 'f'

/-- Decimal printing of a natural number, most-significant digit first
(structurally recursive on a fuel bound so that it kernel-reduces). -/
def natToCharsGo : Nat → Nat → List Char → List Char
  | 0, _, acc => acc
  | fuel + 1, n, acc =>
    let acc' := digitChar10 (n % 10) :: acc
    if n < 10 then acc' else natToCharsGo fuel (n / 10) acc'

def natToChars (n : Nat) : List Char := natToCharsGo (n + 1) n []

/-- `JSON.stringify` of an integral JS number. -/
def intToChars (n : Int) : List Char :=
  if n < 0 then '-' :: natToChars n.natAbs else natToChars n.toNat

/-- `JSON.stringify`'s escaping of one character inside a string literal. -/
def escSB (c : Char) : List Char :=
  if c = '"' then ['\\', '"']
  else if c = '\\' then ['\\', '\\']
  else if c = '\x08' then ['\\', 'b']
  else if c = '\x0c' then ['\\', 'f']
  else if c = '\n' then ['\\', 'n']
  else if c = '\r' then ['\\', 'r']
  else if c = '\t' then ['\\', 't']
  else if c.toNat < 32 then
    ['\\', 'u', '0', '0', hexDigitChar (c.toNat / 16), hexDigitChar (c.toNat % 16)]
  else [c]

def escBody : List Char → List Char
  | [] => []
  | c :: t => escSB c ++ escBody t

/-- `JSON.stringify` of a string. -/
def stringifyStr (s : String) : List Char := '"' :: (escBody s.data ++ ['"'])

mutual

/-- `JSON.stringify` (compact form, no indentation). -/
def stringifyJson : Json → List Char
  | .null => "null".data
  | .bool true => "true".data
  | .bool false => "false".data
  | .num n => intToChars n
  | .str s => stringifyStr s
  | .arr xs => '[' :: (stringifyArr xs ++ [']'])
  | .obj fs => '\x7b' :: (stringifyFields fs ++ ['\x7d'])

def stringifyArr : List Json → List Char
  | [] => []
  | [x] => stringifyJson x
  | x :: y :: xs => stringifyJson x ++ ',' :: stringifyArr (y :: xs)

def stringifyFields : List (String × Json) → List Char
  | [] => []
  | [(k, v)] => stringifyStr k ++ ':' :: stringifyJson v
  | (k, v) :: f :: fs =>
    (stringifyStr k ++ ':' :: stringifyJson v) ++ ',' :: stringifyFields (f :: fs)

end

/-- The text that follows the first element inside a stringified array:
nothing, or a comma and the remaining elements. -/
def arrTailText (xs : List Json) : List Char :=
  match xs with
  | [] => []
  | _ => ',' :: stringifyArr xs

/-- The text that follows the first member inside a stringified object. -/
def fieldsTailText (fs : List (String × Json)) : List Char :=
  match fs with
  | [] => []
  | _ => ',' :: stringifyFields fs

/-- The keys of an association list are pairwise distinct. -/
def keysNodupB : List (String × Json) → Bool
  | [] => true
  | (k, _) :: fs => !(fs.any fun m => m.1 = k) && keysNodupB fs

mutual

/-- Well-formedness of a `Json` value as the image of an actual JS value:
object keys are distinct at every level (a JS object cannot carry duplicate
keys). -/
def wfJson : Json → Bool
  | .null => true
  | .bool _ => true
  | .num _ => true
  | .str _ => true
  | .arr xs => wfElems xs
  | .obj fs => keysNodupB fs && wfMembers fs

def wfElems : List Json → Bool
  | [] => true
  | x :: xs => wfJson x && wfElems xs

def wfMembers : List (String × Json) → Bool
  | [] => true
  | (_, v) :: fs => wfJson v && wfMembers fs

end

mutual

/-- Fuel sufficient for `parseValue` on the printed form of a value. -/
def wValue : Json → Nat
  | .null => 1
  | .bool _ => 1
  | .num _ => 1
  | .str _ => 1
  | .arr xs => 1 + wElems xs
  | .obj fs => 1 + wMembers fs

def wElems : List Json → Nat
  | [] => 1
  | x :: xs => 1 + max (wValue x) (wElems xs)

def wMembers : List (String × Json) → Nat
  | [] => 1
  | (_, v) :: fs => 1 + max (wValue v) (wMembers fs)

end

/-- JS object property write used by `JSON.parse` on duplicate keys:
overwrite in place, else append. -/
def jsSetKey : List (String × Json) → String → Json → List (String × Json)
  | [], k, v => [(k, v)]
  | (k', v') :: rest, k, v =>
    if k' = k then (k', v) :: rest else (k', v') :: jsSetKey rest k v

/-- Build a JS object from parsed members in order. -/
def jsObjFromPairs (ps : List (String × Json)) : List (String × Json) :=
  ps.foldl (fun acc kv => jsSetKey acc kv.1 kv.2) []

/-- JS property read `value.key`: `undefined` (`none`) unless the value is an
object with that key. -/
def jsGetField : Json → String → Option Json
  | .obj fs, k => List.lookup k fs
  | _, _ => none

/-- JSON insignificant whitespace (what `JSON.parse` skips between tokens). -/
def isJsonWs (c : Char) : Bool := c = ' ' || c = '\t' || c = '\n' || c = '\r'

def skipWs (l : List Char) : List Char := l.dropWhile isJsonWs

/-- Consume an expected literal character sequence. -/
def dropLit : List Char → List Char → Option (List Char)
  | [], l => some l
  | _ :: _, [] => none
  | x :: xs, c :: l => if c = x then dropLit xs l else none

def pcons (c : Char) :
    Except ParseErr (List Char × List Char) → Except ParseErr (List Char × List Char)
  | .ok (s, r) => .ok (c :: s, r)
  | .error e => .error e

def hexVal (c : Char) : Option Nat :=
  if '0' ≤ c ∧ c ≤ '9' then some (c.toNat - 48)
  else if 'a' ≤ c ∧ c ≤ 'f' then some (c.toNat - 87)
  else if 'A' ≤ c ∧ c ≤ 'F' then some (c.toNat - 55)
  else none

/-- The body of a JSON string literal, after the opening quote: decodes
escapes, stops at the closing quote, and reports the error class `JSON.parse`
reports — `controlChar` exactly on a raw code point below 32 inside the
literal. -/
def parseStringBody : List Char → Except ParseErr (List Char × List Char)
  | [] => .error .other
  | c :: rest =>
    if c = '"' then .ok ([], rest)
    else if c = '\\' then
      match rest with
      | [] => .error .other
      | e :: rest2 =>
        if e = '"' then pcons '"' (parseStringBody rest2)
        else if e = '\\' then pcons '\\' (parseStringBody rest2)
        else if e = '/' then pcons '/' (parseStringBody rest2)
        else if e = 'b' then pcons '\x08' (parseStringBody rest2)
        else if e = 'f' then pcons '\x0c' (parseStringBody rest2)
        else if e = 'n' then pcons '\n' (parseStringBody rest2)
        else if e = 'r' then pcons '\r' (parseStringBody rest2)
        else if e = 't' then pcons '\t' (parseStringBody rest2)
        else if e = 'u' then
          match rest2 with
          | h1 :: h2 :: h3 :: h4 :: rest3 =>
            match hexVal h1, hexVal h2, hexVal h3, hexVal h4 with
            | some a, some b, some c2, some d =>
              let v := ((a * 16 + b) * 16 + c2) * 16 + d
              if v < 55296 ∨ (57343 < v ∧ v < 1114112) then
                pcons (Char.ofNat v) (parseStringBody rest3)
              else .error .other
            | _, _, _, _ => .error .other
          | _ => .error .other
        else .error .other
    else if c.toNat < 32 then .error .controlChar
    else pcons c (parseStringBody rest)

/-- Fold decimal digit characters into a natural number. -/
def digitsFold (l : List Char) : Nat :=
  l.foldl (fun a c => a * 10 + (c.toNat - 48)) 0

/-- A JSON number token (integral forms; see the modelling note above). -/
def parseNumberBody (l : List Char) : Except ParseErr (Int × List Char) :=
  match l with
  | '-' :: r =>
    let ds := r.takeWhile Char.isDigit
    if ds.isEmpty then .error .other
    else .ok (-(digitsFold ds : Int), r.dropWhile Char.isDigit)
  | _ =>
    let ds := l.takeWhile Char.isDigit
    if ds.isEmpty then .error .other
    else .ok ((digitsFold ds : Int), l.dropWhile Char.isDigit)

mutual

/-- Recursive-descent model of `JSON.parse`, scanning left to right so the
first error encountered determines the error class, as in V8. -/
def parseValue : Nat → List Char → Except ParseErr (Json × List Char)
  | 0, _ => .error .other
  | fuel + 1, input =>
    match skipWs input with
    | [] => .error .other
    | c :: r =>
      if c = 'n' then
        match dropLit "ull".data r with
        | some rest => .ok (.null, rest)
        | none => .error .other
      else if c = 't' then
        match dropLit "rue".data r with
        | some rest => .ok (.bool true, rest)
        | none => .error .other
      else if c = 'f' then
        match dropLit "alse".data r with
        | some rest => .ok (.bool false, rest)
        | none => .error .other
      else if c = '"' then
        match parseStringBody r with
        | .ok (s, rest) => .ok (.str ⟨s⟩, rest)
        | .error e => .error e
      else if c = '[' then
        match parseElems fuel r with
        | .ok (xs, rest) => .ok (.arr xs, rest)
        | .error e => .error e
      else if c = '\x7b' then
        match parseMembers fuel r with
        | .ok (fs, rest) => .ok (.obj (jsObjFromPairs fs), rest)
        | .error e => .error e
      else if c = '-' || c.isDigit then
        match parseNumberBody (c :: r) with
        | .ok (n, rest) => .ok (.num n, rest)
        | .error e => .error e
      else .error .other

/-- Array contents after `[`. -/
def parseElems : Nat → List Char → Except ParseErr (List Json × List Char)
  | 0, _ => .error .other
  | fuel + 1, input =>
    match skipWs input with
    | [] => .error .other
    | c :: r =>
      if c = ']' then .ok ([], r)
      else
        match parseValue fuel (c :: r) with
        | .error e => .error e
        | .ok (x, rest) =>
          match parseElemsTail fuel rest with
          | .error e => .error e
          | .ok (xs, rest2) => .ok (x :: xs, rest2)

/-- Array contents after an element: `,` element … or `]`. -/
def parseElemsTail : Nat → List Char → Except ParseErr (List Json × List Char)
  | 0, _ => .error .other
  | fuel + 1, input =>
    match skipWs input with
    | [] => .error .other
    | c :: r =>
      if c = ']' then .ok ([], r)
      else if c = ',' then
        match parseValue fuel r with
        | .error e => .error e
        | .ok (x, rest) =>
          match parseElemsTail fuel rest with
          | .error e => .error e
          | .ok (xs, rest2) => .ok (x :: xs, rest2)
      else .error .other

/-- Object contents after `{`. -/
def parseMembers : Nat → List Char → Except ParseErr (List (String × Json) × List Char)
  | 0, _ => .error .other
  | fuel + 1, input =>
    match skipWs input with
    | [] => .error .other
    | c :: r =>
      if c = '\x7d' then .ok ([], r)
      else if c = '"' then
        match parseStringBody r with
        | .error e => .error e
        | .ok (k, rest) =>
          match skipWs rest with
          | c2 :: r2 =>
            if c2 = ':' then
              match parseValue fuel r2 with
              | .error e => .error e
              | .ok (v, rest2) =>
                match parseMembersTail fuel rest2 with
                | .error e => .error e
                | .ok (fs, rest3) => .ok ((⟨k⟩, v) :: fs, rest3)
            else .error .other
          | [] => .error .other
      else .error .other

/-- Object contents after a member: `,` member … or `}`. -/
def parseMembersTail : Nat → List Char → Except ParseErr (List (String × Json) × List Char)
  | 0, _ => .error .other
  | fuel + 1, input =>
    match skipWs input with
    | [] => .error .other
    | c :: r =>
      if c = '\x7d' then .ok ([], r)
      else if c = ',' then
        match skipWs r with
        | c2 :: r2 =>
          if c2 = '"' then
            match parseStringBody r2 with
            | .error e => .error e
            | .ok (k, rest) =>
              match skipWs rest with
              | c3 :: r3 =>
                if c3 = ':' then
                  match parseValue fuel r3 with
                  | .error e => .error e
                  | .ok (v, rest2) =>
                    match parseMembersTail fuel rest2 with
                    | .error e => .error e
                    | .ok (fs, rest3) => .ok ((⟨k⟩, v) :: fs, rest3)
                else .error .other
              | [] => .error .other
          else .error .other
        | [] => .error .other
      else .error .other

end

/-- `JSON.parse` on a whole text: one value, then only whitespace may remain.
The fuel `length + 1` is sufficient for every well-formed input (two fuel
levels consume at least one character). -/
def parseJsonText (l : List Char) : Except ParseErr Json :=
  match parseValue (l.length + 1) l with
  | .error e => .error e
  | .ok (j, rest) => if (skipWs rest).isEmpty then .ok j else .error .other

/-! ### `src/workers/analyzer.ts` — the structured-output recovery parser -/

/-- The backtick character (code point 96). -/
def btChar : Char := Char.ofNat 96

/-- One global pass of `responseText.replace(/```json?\n?/g, "")`
(`analyzer.ts` line 107).  At each position the regex matches three backticks,
the literal characters `jso`, an optional `n`, and an optional newline —
greedy, longest alternative first; matches are removed, everything else is
copied.  Note a bare fence or a non-`json` language tag does NOT match. -/
def rep1Go : Nat → List Char → List Char
  | 0, l => l
  | _ + 1, [] => []
  | fuel + 1, c1 :: t1 =>
    if c1 = btChar then
      match t1 with
      | c2 :: c3 :: 'j' :: 's' :: 'o' :: t6 =>
        if c2 = btChar && c3 = btChar then
          match t6 with
          | 'n' :: '\n' :: r => rep1Go fuel r
          | 'n' :: r => rep1Go fuel r
          | '\n' :: r => rep1Go fuel r
          | r => rep1Go fuel r
        else c1 :: rep1Go fuel t1
      | _ => c1 :: rep1Go fuel t1
    else c1 :: rep1Go fuel t1

def rep1 (l : List Char) : List Char := rep1Go l.length l

/-- `responseText.replace(/```\n?$/g, "")` (`analyzer.ts` line 107): the only
possible match is anchored at the end of the string. -/
def rep2 (l : List Char) : List Char :=
  if endsL l "```\n".data then l.take (l.length - 4)
  else if endsL l "```".data then l.take (l.length - 3)
  else l

/-- `analyzer.ts` lines 106-108: fence markers are stripped (and the result
re-trimmed) only when the trimmed text starts with three backticks. -/
def fenceStage (t : List Char) : List Char :=
  if startsL t "```".data then jsTrim (rep2 (rep1 t)) else t

/-- The in-string rewriting of one character in the control-character repair
pass (`analyzer.ts` lines 161-175); `toString(16).padStart(4, '0')` equals
`00` plus two hex digits for the code points below 32 that reach it. -/
def escCtl (c : Char) : List Char :=
  if c = '\n' then ['\\', 'n']
  else if c = '\r' then ['\\', 'r']
  else if c = '\t' then ['\\', 't']
  else if c = '\x0c' then ['\\', 'f']
  else if c = '\x08' then ['\\', 'b']
  else if c.toNat < 32 then
    ['\\', 'u', '0', '0', hexDigitChar (c.toNat / 16), hexDigitChar (c.toNat % 16)]
  else [c]

/-- The character scan of the repair pass (`analyzer.ts` lines 134-179),
with its exact state: the previous original character, the `inString` flag,
and the `escapeNext` flag.  When the character is `"` and the previous
character is a backslash the source skips the quote toggle and falls through
to the in-string/outside branches; both append the quote unchanged, so that
fallthrough is written directly here. -/
def fixCtlGo : Option Char → Bool → Bool → List Char → List Char
  | _, _, _, [] => []
  | prev, inString, escNext, c :: rest =>
    if escNext then c :: fixCtlGo (some c) inString false rest
    else if c = '\\' then c :: fixCtlGo (some c) inString true rest
    else if c = '"' then
      if prev = some '\\' then c :: fixCtlGo (some c) inString escNext rest
      else c :: fixCtlGo (some c) (!inString) escNext rest
    else if inString then escCtl c ++ fixCtlGo (some c) inString escNext rest
    else c :: fixCtlGo (some c) inString escNext rest

def fixControlChars (l : List Char) : List Char := fixCtlGo none false false l

/-- The fixed degraded result returned by `analyzeHeaders`' catch block
(`analyzer.ts` lines 203-218). -/
def degradedJson : Json :=
  .obj
    [("score", .num 50),
     ("summary", .str "Unable to complete AI analysis. Basic header check shows moderate security concerns."),
     ("issues", .arr
       [.obj
         [("name", .str "Analysis Error"),
          ("severity", .str "medium"),
          ("header", .str "N/A"),
          ("current_value", .null),
          ("recommended_value", .str "N/A"),
          ("explanation", .str "The AI analysis failed. Please try again or contact support if the issue persists.")]])]

/-- The shape validation of `analyzer.ts` lines 188-195: `score` numeric,
`summary` a string, `issues` an array. -/
def isValidShape (j : Json) : Bool :=
  (match jsGetField j "score" with
   | some (.num _) => true
   | _ => false) &&
    (match jsGetField j "summary" with
     | some (.str _) => true
     | _ => false) &&
    (match jsGetField j "issues" with
     | some (.arr _) => true
     | _ => false)

/-- Return the parsed value if it validates, else the degraded result (the
validation failure throws into the outer catch). -/
def validateShape (j : Json) : Json := if isValidShape j then j else degradedJson

/-- `analyzer.ts` lines 110-197 on the fence-stripped text: the truncation
check, the double-encoded-string decode, the parse, the control-character
repair retry, and the shape validation; every failure lands in the outer
catch, i.e. the degraded result. -/
def recoverStage2 (responseText : List Char) : Json :=
  let trimmed := jsTrim responseText
  if !(endsL trimmed ['\x7d'] || endsL trimmed [']']) then degradedJson
  else
    match
      (if startsL responseText ['"'] && endsL responseText ['"'] then
        match parseJsonText responseText with
        | .ok (.str s) => some s.data
        | _ => none
      else some responseText) with
    | none => degradedJson
    | some jsonText =>
      match parseJsonText jsonText with
      | .ok j => validateShape j
      | .error e =>
        if e = .controlChar then
          match parseJsonText (fixControlChars jsonText) with
          | .ok j => validateShape j
          | .error _ => degradedJson
        else degradedJson

/-- The recovery parser: `analyzeHeaders`' treatment of the raw model text
(`analyzer.ts` lines 101-219) — trim, conditional fence stripping, then the
parse/repair/validate pipeline with the degraded fallback. -/
def recover (rawText : String) : Json :=
  recoverStage2 (fenceStage (jsTrim rawText.data))

/-- The fields of an analysis-result value `{score, summary, issues}`. -/
def analysisFields (score : Int) (summary : String) (issues : List Json) :
    List (String × Json) :=
  [("score", .num score), ("summary", .str summary), ("issues", .arr issues)]

/-- `JSON.stringify` of an analysis-result value `{score, summary, issues}`. -/
def stringifyAnalysis (score : Int) (summary : String) (issues : List Json) :
    List Char :=
  stringifyJson (.obj (analysisFields score summary issues))

/-- The `score` field of a recovered value, as an integer when present. -/
def scoreNum (j : Json) : Option Int :=
  match jsGetField j "score" with
  | some (.num n) => some n
  | _ => none

/-! ## Theorems

Shared helper lemmas come first, then one theorem per claim (with witnesses
and counterexamples where the claim's status requires them). -/

theorem dropWhile_eq_self_of_head (p : Char → Bool) (l : List Char)
    (h : ∀ c t, l = c :: t → p c = false) : l.dropWhile p = l := by
  cases l with
  | nil => rfl
  | cons c t => simp [List.dropWhile_cons, h c t rfl]

theorem head_false_of_dropWhile_self (p : Char → Bool) (a : Char) (t : List Char)
    (h : (a :: t).dropWhile p = a :: t) : p a = false := by
  by_contra hb
  rw [Bool.not_eq_false] at hb
  rw [List.dropWhile_cons, if_pos hb] at h
  have hle := (List.dropWhile_sublist (l := t) (p := p)).length_le
  rw [h] at hle
  simp at hle

theorem trimLeftL_trimRightL (l : List Char) (h : trimLeftL l = l) :
    trimLeftL (trimRightL l) = trimRightL l := by
  unfold trimLeftL at h ⊢
  unfold trimRightL
  apply dropWhile_eq_self_of_head
  intro c cs hr
  obtain ⟨t, ht⟩ := List.rdropWhile_prefix isJsWs l
  rw [hr] at ht
  rcases l with _ | ⟨a, t'⟩
  · simp at ht
  · have hc : c = a := by
      have := ht
      simp only [List.cons_append] at this
      exact (List.cons.injEq _ _ _ _ ▸ this).1
    rw [hc]
    exact head_false_of_dropWhile_self isJsWs a t' h

theorem jsTrim_idem (l : List Char) : jsTrim (jsTrim l) = jsTrim l := by
  unfold jsTrim
  rw [trimLeftL_trimRightL (trimLeftL l)
    (by unfold trimLeftL; exact List.dropWhile_idempotent isJsWs l)]
  unfold trimRightL
  exact List.rdropWhile_idempotent isJsWs (trimLeftL l)

theorem jsTrim_eq_self (l : List Char)
    (hhead : ∀ c t, l = c :: t → isJsWs c = false)
    (hlast : ∀ c, l.getLast? = some c → isJsWs c = false) : jsTrim l = l := by
  unfold jsTrim trimLeftL trimRightL
  rw [dropWhile_eq_self_of_head isJsWs l hhead, List.rdropWhile_eq_self_iff]
  intro hl
  simp [hlast (l.getLast hl) (List.getLast?_eq_getLast l hl)]

theorem jsTrim_last_not (l : List Char) (c : Char) (h : (jsTrim l).getLast? = some c) :
    isJsWs c = false := by
  unfold jsTrim trimRightL at h
  have hne : List.rdropWhile isJsWs (trimLeftL l) ≠ [] := by
    intro he
    rw [he] at h
    exact Option.noConfusion h
  have hlast := List.rdropWhile_last_not isJsWs (trimLeftL l) hne
  rw [List.getLast?_eq_getLast _ hne] at h
  have hc : c = (List.rdropWhile isJsWs (trimLeftL l)).getLast hne :=
    (Option.some.injEq _ _ ▸ h).symm
  rw [hc]
  simp at hlast
  exact hlast

theorem bareDomainTest_ne_nil (l : List Char) (h : bareDomainTest l = true) :
    l ≠ [] := by
  intro he
  rw [he] at h
  exact absurd h (by decide)

theorem jsTrim_https_append (t2 : List Char)
    (h : ∀ c, t2.getLast? = some c → isJsWs c = false) :
    jsTrim ("https://".data ++ t2) = "https://".data ++ t2 := by
  apply jsTrim_eq_self
  · intro c t hct
    have h8 : "https://".data ++ t2 = 'h' :: ("ttps://".data ++ t2) := rfl
    rw [h8] at hct
    rw [((List.cons.injEq _ _ _ _).mp hct).1.symm]
    decide
  · intro c hc
    rcases he : t2 with _ | ⟨a, t⟩
    · rw [he, List.append_nil] at hc
      have : c = '/' := by
        have : ("https://".data).getLast? = some '/' := by decide
        rw [this] at hc
        exact (Option.some.injEq _ _ ▸ hc).symm
      rw [this]
      decide
    · have ht2ne : t2 ≠ [] := by rw [he]; simp
      rw [List.getLast?_append_of_ne_nil _ ht2ne] at hc
      exact h c hc

theorem normalizeUrl_fixed (u : String) :
    matchesHttpScheme (normalizeUrl u).data = true
      ∧ jsTrim (normalizeUrl u).data = (normalizeUrl u).data := by
  unfold normalizeUrl
  by_cases hm : matchesHttpScheme (jsTrim u.data) = true
  · simp only [hm, if_true]
    exact ⟨by simp [hm], jsTrim_idem u.data⟩
  · rw [Bool.not_eq_true] at hm
    simp only [hm, Bool.false_eq_true, if_false]
    constructor
    · unfold matchesHttpScheme
      exact (by decide :
        (toLowerL "https:/".data == "http://".data
          || toLowerL "https://".data == "https://".data) = true)
    · apply jsTrim_https_append
      intro c hc
      by_cases hcond : (bareDomainTest (jsTrim u.data)
          && !startsL (jsTrim u.data) "www.".data) = true
      · rw [if_pos hcond] at hc
        have hbd : bareDomainTest (jsTrim u.data) = true := by
          rw [Bool.and_eq_true] at hcond
          exact hcond.1
        have htne : jsTrim u.data ≠ [] := bareDomainTest_ne_nil _ hbd
        rw [List.getLast?_append_of_ne_nil _ htne] at hc
        exact jsTrim_last_not u.data c hc
      · rw [Bool.not_eq_true] at hcond
        rw [if_neg (by rw [hcond]; exact Bool.false_ne_true)] at hc
        exact jsTrim_last_not u.data c hc

theorem normalizeUrl_eq_self (v : String) (h1 : matchesHttpScheme v.data = true)
    (h2 : jsTrim v.data = v.data) : normalizeUrl v = v := by
  unfold normalizeUrl
  simp only [h2, h1, if_true]

/-- C10: `normalizeUrl` is idempotent — normalizing an already-normalized URL
returns it unchanged — and consequently `getCacheKey` of a normalized URL
equals `getCacheKey` of the raw user input. -/
theorem normalizeUrl_idempotent_getCacheKey (u : String) :
    normalizeUrl (normalizeUrl u) = normalizeUrl u
      ∧ getCacheKey (normalizeUrl u) = getCacheKey u := by
  have h := normalizeUrl_fixed u
  have hidem : normalizeUrl (normalizeUrl u) = normalizeUrl u :=
    normalizeUrl_eq_self _ h.1 h.2
  exact ⟨hidem, by unfold getCacheKey; rw [hidem]⟩

/-- C1: the claim (and the spec's testable property) says a probe response
with status 503 — likewise 429 — is classified as `BotProtection`; in the code
the non-200 check (`utils.ts` line 196) runs before `isBotProtectionResponse`
(line 205), so a 503 response is returned as `NonSuccess`, even though the
heuristic itself would have reported possible-WAF — its 429/503 branches are
unreachable.  This theorem evaluates the classifier at the failing input. -/
theorem classify_503_returns_nonSuccess :
    fetchWithSmartFallback ⟨"https:", "/"⟩ ⟨503, "Service Unavailable", []⟩ (fun _ => none)
        = .non200 503 "Service Unavailable" (non200Message 503 "Service Unavailable")
      ∧ isBotProtectionResult
          (fetchWithSmartFallback ⟨"https:", "/"⟩ ⟨503, "Service Unavailable", []⟩
            (fun _ => none)) = false
      ∧ isBotProtectionResponse [] 503
          = some "Service Unavailable (503) - Possible WAF/bot protection"
      ∧ fetchWithSmartFallback ⟨"https:", "/"⟩ ⟨429, "Too Many Requests", []⟩ (fun _ => none)
          = .non200 429 "Too Many Requests" (non200Message 429 "Too Many Requests")
      ∧ isBotProtectionResponse [] 429 = some "Rate Limited (429)" := by
  exact ⟨by decide, by decide, by decide, by decide, by decide⟩

theorem analyzeCookies_le (o : Option String) :
    (analyzeCookies o).secure ≤ (analyzeCookies o).total
      ∧ (analyzeCookies o).httpOnly ≤ (analyzeCookies o).total
      ∧ (analyzeCookies o).sameSite ≤ (analyzeCookies o).total := by
  cases o with
  | none => simp [analyzeCookies]
  | some h =>
    by_cases h0 : h = ""
    · simp [analyzeCookies, h0]
    · simp only [analyzeCookies, h0, if_neg]
      refine ⟨List.countP_le_length _, List.countP_le_length _, List.countP_le_length _⟩

/-- C8: for every input header map, the derived cookie statistics satisfy
`secure ≤ total`, `httpOnly ≤ total` and `sameSite ≤ total` (the counts are
natural numbers, hence non-negative), and when the `set-cookie` header is
absent all four counts are zero. -/
theorem preprocessHeaders_cookieStats_invariant (headers : List (String × String)) :
    ((preprocessHeaders headers).2.cookieStats.secure
        ≤ (preprocessHeaders headers).2.cookieStats.total
      ∧ (preprocessHeaders headers).2.cookieStats.httpOnly
        ≤ (preprocessHeaders headers).2.cookieStats.total
      ∧ (preprocessHeaders headers).2.cookieStats.sameSite
        ≤ (preprocessHeaders headers).2.cookieStats.total)
    ∧ (lookupS headers "set-cookie" = none →
        (preprocessHeaders headers).2.cookieStats = ⟨0, 0, 0, 0⟩) := by
  constructor
  · exact analyzeCookies_le (lookupS headers "set-cookie")
  · intro h
    simp [preprocessHeaders, h, analyzeCookies]

/-- Witness for C8 at a concrete header map without `set-cookie`. -/
theorem preprocessHeaders_cookieStats_invariant_witness :
    (preprocessHeaders [("server", "nginx")]).2.cookieStats = ⟨0, 0, 0, 0⟩ :=
  (preprocessHeaders_cookieStats_invariant [("server", "nginx")]).2 (by decide)

theorem tryAltPaths_first_success (probe : String → Option ProbeResponse)
    (pre post : List String) (p : String) (r : ProbeResponse)
    (hfail : ∀ q ∈ pre, altAttemptFails (probe q) = true)
    (hp : probe p = some r) (hr200 : r.status = 200)
    (hrich : 5 ≤ (headersToObject r.headers).length) :
    tryAltPaths probe (pre ++ p :: post)
      = some (headersToObject r.headers, contentTypeOf (headersToObject r.headers)) := by
  induction pre with
  | nil =>
    simp only [List.nil_append, tryAltPaths, hp]
    rw [if_pos]
    simp [hr200, hrich]
  | cons q qs ih =>
    have hq := hfail q (by simp)
    simp only [List.cons_append, tryAltPaths]
    cases hpq : probe q with
    | none => exact ih fun q' hq' => hfail q' (by simp [hq'])
    | some rq =>
      rw [hpq] at hq
      simp only [altAttemptFails, Bool.not_eq_true'] at hq
      simp only [hq, Bool.false_eq_true, if_false]
      exact ih fun q' hq' => hfail q' (by simp [hq'])

theorem classify_reaches_sparse (url : UrlParts) (first : ProbeResponse)
    (probe : String → Option ProbeResponse)
    (hscheme : url.protocol ≠ "http:")
    (hasset : isAssetURL url = none)
    (hstatus : first.status = 200)
    (hbot : isBotProtectionResponse (headersToObject first.headers) first.status = none)
    (hct : contentTypePasses (contentTypeOf (headersToObject first.headers)) = true)
    (hsig : serverSigTest
      (((lookupS (headersToObject first.headers) "server").map lowerS).getD "") = false) :
    fetchWithSmartFallback url first probe
      = sparseOrUsable probe (headersToObject first.headers)
          (((lookupS (headersToObject first.headers) "server").map lowerS).getD "")
          (contentTypeOf (headersToObject first.headers)) := by
  unfold fetchWithSmartFallback
  rw [if_neg hscheme, hasset]
  rw [hstatus] at hbot
  simp only [hstatus, hbot]
  rw [if_neg (by omega : ¬(200 : Nat) ≠ 200)]
  cases hcto : contentTypeOf (headersToObject first.headers) with
  | none =>
    simp only [cdnOrBelow, hcto]
    rw [if_neg (by rw [hsig]; exact Bool.false_ne_true)]
  | some ct =>
    rw [hcto] at hct
    simp only [contentTypePasses, Bool.not_eq_true'] at hct
    simp only [hct, Bool.false_eq_true, if_false, cdnOrBelow]
    rw [if_neg (by rw [hsig]; exact Bool.false_ne_true)]

/-- C4: when the first probe is a 200 response that passes the bot-protection,
content-type and CDN-signature checks but carries fewer than 5 headers,
`classify` probes the fixed alternate-path list in order and returns `Usable`
with the headers of the first candidate whose status is 200 and whose header
count is at least 5 — escalation stops at that first success and the original
sparse header set is not returned. -/
theorem classify_escalates_to_first_rich_candidate
    (url : UrlParts) (first : ProbeResponse) (probe : String → Option ProbeResponse)
    (pre post : List String) (p : String) (r : ProbeResponse)
    (hscheme : url.protocol ≠ "http:")
    (hasset : isAssetURL url = none)
    (hstatus : first.status = 200)
    (hbot : isBotProtectionResponse (headersToObject first.headers) first.status = none)
    (hct : contentTypePasses (contentTypeOf (headersToObject first.headers)) = true)
    (hsig : serverSigTest
      (((lookupS (headersToObject first.headers) "server").map lowerS).getD "") = false)
    (hsparse : (headersToObject first.headers).length < 5)
    (hpaths : altPaths = pre ++ p :: post)
    (hfail : ∀ q ∈ pre, altAttemptFails (probe q) = true)
    (hp : probe p = some r)
    (hr200 : r.status = 200)
    (hrich : 5 ≤ (headersToObject r.headers).length) :
    fetchWithSmartFallback url first probe
      = .usable (headersToObject r.headers) (contentTypeOf (headersToObject r.headers)) := by
  rw [classify_reaches_sparse url first probe hscheme hasset hstatus hbot hct hsig]
  unfold sparseOrUsable
  rw [if_pos hsparse, hpaths,
    tryAltPaths_first_success probe pre post p r hfail hp hr200 hrich]

/-- Witness for C4: a sparse 3-header first probe, a failing first candidate
(`/en-us/` transport failure) and a rich 7-header second candidate at
`/index.html`. -/
theorem classify_escalates_to_first_rich_candidate_witness :
    fetchWithSmartFallback ⟨"https:", "/"⟩
        ⟨200, "OK", [("Content-Type", "text/html"), ("Server", "nginx"), ("X-A", "1")]⟩
        (fun q => if q = "/index.html" then
          some ⟨200, "OK",
            [("A", "1"), ("B", "2"), ("C", "3"), ("D", "4"), ("E", "5"),
             ("Content-Type", "text/html"), ("Server", "nginx")]⟩ else none)
      = .usable
          (headersToObject
            [("A", "1"), ("B", "2"), ("C", "3"), ("D", "4"), ("E", "5"),
             ("Content-Type", "text/html"), ("Server", "nginx")])
          (contentTypeOf (headersToObject
            [("A", "1"), ("B", "2"), ("C", "3"), ("D", "4"), ("E", "5"),
             ("Content-Type", "text/html"), ("Server", "nginx")])) :=
  classify_escalates_to_first_rich_candidate _ _ _
    ["/en-us/"] ["/home", "/about"] "/index.html"
    ⟨200, "OK",
      [("A", "1"), ("B", "2"), ("C", "3"), ("D", "4"), ("E", "5"),
       ("Content-Type", "text/html"), ("Server", "nginx")]⟩
    (by decide) (by decide) rfl (by decide) (by decide) (by decide) (by decide)
    (by decide) (by decide) (by decide) rfl (by decide)

/-- C9: a candidate response in the escalation loop is accepted solely on
status 200 and at least 5 headers: the bot-protection heuristic, the non-HTML
content-type check and the CDN server-signature check applied to the first
probe are not re-applied to the candidate.  Stated with a candidate on which
every one of those checks would fire (an `AkamaiGHost` server signature and an
`application/json` content type), the classification is still `Usable` with
that candidate's headers and content type. -/
theorem escalation_skips_candidate_checks
    (url : UrlParts) (first : ProbeResponse) (probe : String → Option ProbeResponse)
    (r : ProbeResponse)
    (hscheme : url.protocol ≠ "http:")
    (hasset : isAssetURL url = none)
    (hstatus : first.status = 200)
    (hbot : isBotProtectionResponse (headersToObject first.headers) first.status = none)
    (hct : contentTypePasses (contentTypeOf (headersToObject first.headers)) = true)
    (hsig : serverSigTest
      (((lookupS (headersToObject first.headers) "server").map lowerS).getD "") = false)
    (hsparse : (headersToObject first.headers).length < 5)
    (hp : probe "/en-us/" = some r)
    (hr200 : r.status = 200)
    (hrich : 5 ≤ (headersToObject r.headers).length)
    (_hbotR : isBotProtectionResponse (headersToObject r.headers) r.status
        = some "Akamai Bot Protection")
    (hctR : contentTypeOf (headersToObject r.headers) = some "application/json")
    (_hsigR : serverSigTest
        (((lookupS (headersToObject r.headers) "server").map lowerS).getD "") = true) :
    fetchWithSmartFallback url first probe
      = .usable (headersToObject r.headers) (some "application/json") := by
  rw [classify_reaches_sparse url first probe hscheme hasset hstatus hbot hct hsig]
  unfold sparseOrUsable
  rw [if_pos hsparse]
  have hsplit : altPaths = [] ++ "/en-us/" :: ["/index.html", "/home", "/about"] := rfl
  rw [hsplit, tryAltPaths_first_success probe [] _ "/en-us/" r (by simp) hp hr200 hrich,
    hctR]

/-- Witness for C9: the first candidate returns 200 with 5 headers, a CDN/bot
server signature and a JSON content type, and is accepted as `Usable`. -/
theorem escalation_skips_candidate_checks_witness :
    fetchWithSmartFallback ⟨"https:", "/"⟩
        ⟨200, "OK", [("Content-Type", "text/html"), ("Server", "nginx"), ("X-A", "1")]⟩
        (fun q => if q = "/en-us/" then
          some ⟨200, "OK",
            [("Server", "AkamaiGHost"), ("Content-Type", "application/json"),
             ("A", "1"), ("B", "2"), ("C", "3")]⟩ else none)
      = .usable
          (headersToObject
            [("Server", "AkamaiGHost"), ("Content-Type", "application/json"),
             ("A", "1"), ("B", "2"), ("C", "3")])
          (some "application/json") :=
  escalation_skips_candidate_checks _ _ _
    ⟨200, "OK",
      [("Server", "AkamaiGHost"), ("Content-Type", "application/json"),
       ("A", "1"), ("B", "2"), ("C", "3")]⟩
    (by decide) (by decide) rfl (by decide) (by decide) (by decide) (by decide)
    (by decide) rfl (by decide) (by decide) (by decide) (by decide)

theorem findSome_ends_suffixFree (p : List Char) (exts : List String)
    (hsf : ∀ a ∈ exts, ∀ b ∈ exts, a.data <:+ p → b.data <:+ p → a = b)
    (ext : String) (hmem : ext ∈ exts) (hend : endsL p ext.data = true) :
    (exts.findSome? fun e => if endsL p e.data then some e else none) = some ext := by
  induction exts with
  | nil => simp at hmem
  | cons e es ih =>
    rw [List.findSome?_cons]
    by_cases he : endsL p e.data = true
    · simp only [he, if_true]
      have h1 : e.data <:+ p := by
        unfold endsL at he
        exact List.isSuffixOf_iff_suffix.mp he
      have h2 : ext.data <:+ p := by
        unfold endsL at hend
        exact List.isSuffixOf_iff_suffix.mp hend
      rw [hsf e (by simp) ext hmem h1 h2]
    · rw [Bool.not_eq_true] at he
      simp only [he, Bool.false_eq_true, if_false]
      have hne : ext ≠ e := fun h => by rw [h, he] at hend; exact Bool.noConfusion hend
      have hmem' : ext ∈ es := by
        cases hmem with
        | head => exact absurd rfl hne
        | tail _ h => exact h
      exact ih (fun a ha b hb => hsf a (by simp [ha]) b (by simp [hb])) hmem'

theorem isAssetURL_eq_of_ends (url : UrlParts) (ext : String)
    (hmem : ext ∈ assetExtensions)
    (hend : endsL (toLowerL url.pathname.data) ext.data = true) :
    isAssetURL url = some ext := by
  unfold isAssetURL
  apply findSome_ends_suffixFree _ _ _ ext hmem hend
  intro a ha b hb hsa hsb
  rcases List.suffix_or_suffix_of_suffix hsa hsb with h | h
  · clear hsa hsb hend
    revert h ha hb a b
    decide
  · clear hsa hsb hend
    revert h ha hb a b
    decide

/-- C5 (amended): for every URL with a non-plaintext scheme whose lower-cased
path ends in one of the known asset extensions, `classify` returns the
`Asset` outcome carrying that extension, for every possible probe behaviour —
i.e. without consulting the network. -/
theorem classify_asset_without_probe
    (url : UrlParts) (first : ProbeResponse) (probe : String → Option ProbeResponse)
    (ext : String)
    (hscheme : url.protocol ≠ "http:")
    (hmem : ext ∈ assetExtensions)
    (hend : endsL (toLowerL url.pathname.data) ext.data = true) :
    fetchWithSmartFallback url first probe = .asset ext (assetMessage ext) := by
  unfold fetchWithSmartFallback
  rw [if_neg hscheme, isAssetURL_eq_of_ends url ext hmem hend]

/-- Witness for C5 at a concrete asset URL (mixed-case path, arbitrary probe
data). -/
theorem classify_asset_without_probe_witness :
    fetchWithSmartFallback ⟨"https:", "/img/Logo.PNG"⟩ ⟨503, "Service Unavailable", []⟩
        (fun _ => none)
      = .asset ".png" (assetMessage ".png") :=
  classify_asset_without_probe _ _ _ ".png" (by decide) (by decide) (by decide)

/-- Counterexample for C5 as stated: the claim quantifies over all URLs whose
path ends in a known asset extension, but the plaintext-HTTP check precedes
the asset check, so an `http:` URL with an asset path is classified
`HttpOnly`, not `Asset`. -/
theorem classify_asset_counterexample :
    fetchWithSmartFallback ⟨"http:", "/logo.png"⟩ ⟨200, "OK", []⟩ (fun _ => none)
        = .httpOnly httpOnlyMessage
      ∧ isAssetResult
          (fetchWithSmartFallback ⟨"http:", "/logo.png"⟩ ⟨200, "OK", []⟩ (fun _ => none))
          = false
      ∧ endsL (toLowerL ("/logo.png" : String).data) ".png".data = true
      ∧ ".png" ∈ assetExtensions := by
  exact ⟨by decide, by decide, by decide, by decide⟩

theorem isValidShape_degraded : isValidShape degradedJson = true := by decide

theorem isValidShape_validateShape (j : Json) : isValidShape (validateShape j) = true := by
  unfold validateShape
  by_cases h : isValidShape j = true
  · rw [if_pos h]
    exact h
  · rw [if_neg h]
    exact isValidShape_degraded

theorem recoverStage2_shape (t : List Char) : isValidShape (recoverStage2 t) = true := by
  unfold recoverStage2
  dsimp only
  repeat' split
  all_goals first
    | exact isValidShape_degraded
    | exact isValidShape_validateShape _

/-- C2: for every raw text the recovery parser returns a value of the
validated analysis shape — in this total-function embedding every failure
path, rather than propagating an exception, lands on the fixed degraded
result — and whenever the trimmed, fence-stripped text does not end in `}`
or `]` (truncation) the result is exactly the degraded result: score 50, the
stock summary, and one synthetic `Analysis Error` issue of medium severity. -/
theorem recover_total_valid_and_truncation_degraded (raw : String) :
    isValidShape (recover raw) = true
      ∧ ((endsL (jsTrim (fenceStage (jsTrim raw.data))) ['\x7d']
            || endsL (jsTrim (fenceStage (jsTrim raw.data))) [']']) = false →
          recover raw = degradedJson)
      ∧ jsGetField degradedJson "score" = some (.num 50)
      ∧ jsGetField degradedJson "summary" = some (.str
          "Unable to complete AI analysis. Basic header check shows moderate security concerns.")
      ∧ jsGetField degradedJson "issues" = some (.arr
          [.obj
            [("name", .str "Analysis Error"),
             ("severity", .str "medium"),
             ("header", .str "N/A"),
             ("current_value", .null),
             ("recommended_value", .str "N/A"),
             ("explanation", .str
               "The AI analysis failed. Please try again or contact support if the issue persists.")]]) := by
  refine ⟨recoverStage2_shape _, ?_, rfl, rfl, rfl⟩
  intro h
  unfold recover recoverStage2
  simp only [h, Bool.not_false, if_true]

/-- Witness for C2: a truncated text (no closing brace) yields exactly the
degraded result. -/
theorem recover_total_valid_and_truncation_degraded_witness :
    recover "\x7b\"score\": 50" = degradedJson :=
  (recover_total_valid_and_truncation_degraded "\x7b\"score\": 50").2.1 (by decide)

/-- C3: the claim says the repair pass tracks string-literal state honoring
backslash escapes, so that `recover` of JSON whose string values contain raw
newlines succeeds with those characters preserved.  The code has a slip: the
quote handler also tests `prevChar !== '\\'`, which conflicts with the
`escapeNext` flag; after a string value ending in an escaped backslash
(`"b\\"`) the in-string state desynchronises, the raw newline inside a later
string is left unrepaired (the pass returns its input unchanged), the re-parse
fails with the same control-character error, and the degraded result is
returned.  The same text with summary `"b"` instead of `"b\\"` recovers with
the newline preserved, as the claim expects. -/
theorem repairPass_escape_tracking_bug :
    recover "\x7b\"score\":1,\"summary\":\"b\\\\\",\"issues\":[\"x\nY\"]\x7d" = degradedJson
      ∧ fixControlChars
          "\x7b\"score\":1,\"summary\":\"b\\\\\",\"issues\":[\"x\nY\"]\x7d".data
          = "\x7b\"score\":1,\"summary\":\"b\\\\\",\"issues\":[\"x\nY\"]\x7d".data
      ∧ parseJsonText
          "\x7b\"score\":1,\"summary\":\"b\\\\\",\"issues\":[\"x\nY\"]\x7d".data
          = .error .controlChar
      ∧ recover "\x7b\"score\":1,\"summary\":\"b\",\"issues\":[\"x\nY\"]\x7d"
          = .obj [("score", .num 1), ("summary", .str "b"), ("issues", .arr [.str "x\nY"])] :=
  ⟨rfl, rfl, rfl, rfl⟩

theorem rep1Go_nil (f : Nat) : rep1Go f [] = [] := by cases f <;> rfl

theorem rep1Go_bt3 (f : Nat) : rep1Go (f + 3) "```".data = "```".data := by
  simp [rep1Go, rep1Go_nil]

theorem rep1Go_no_bt (u : List Char) (hbt : ∀ c ∈ u, c ≠ btChar) :
    ∀ fuel, u.length + 4 ≤ fuel →
      rep1Go fuel (u ++ "\n```".data) = u ++ "\n```".data := by
  induction u with
  | nil =>
    intro fuel hf
    obtain ⟨f, rfl⟩ : ∃ f, fuel = f + 4 := ⟨fuel - 4, by omega⟩
    have hstep : rep1Go (f + 4) ([] ++ "\n```".data)
        = '\n' :: rep1Go (f + 3) "```".data := by
      simp [rep1Go]
    rw [hstep, rep1Go_bt3]
    rfl
  | cons c u' ih =>
    intro fuel hf
    obtain ⟨f, rfl⟩ : ∃ f, fuel = f + 1 := ⟨fuel - 1, by omega⟩
    have hc : c ≠ btChar := hbt c (by simp)
    have hstep : rep1Go (f + 1) (c :: u' ++ "\n```".data)
        = c :: rep1Go f (u' ++ "\n```".data) := by
      simp only [rep1Go, List.cons_append]
      rw [if_neg hc]
      rfl
    rw [hstep, ih (fun a ha => hbt a (by simp [ha])) f (by simp at hf; omega)]
    rfl

theorem endsL_append4_iff (u : List Char) (a b c d : Char) (s : List Char)
    (hs : s.length = 4) : endsL (u ++ [a, b, c, d]) s = true ↔ s = [a, b, c, d] := by
  constructor
  · intro h
    unfold endsL at h
    have h1 : s <:+ u ++ [a, b, c, d] := List.isSuffixOf_iff_suffix.mp h
    have h2 : [a, b, c, d] <:+ u ++ [a, b, c, d] := List.suffix_append u [a, b, c, d]
    rcases List.suffix_or_suffix_of_suffix h1 h2 with hh | hh
    · exact hh.eq_of_length (by simp [hs])
    · exact (hh.eq_of_length (by simp [hs])).symm
  · intro h
    subst h
    unfold endsL
    exact List.isSuffixOf_iff_suffix.mpr (List.suffix_append _ _)

theorem jsTrim_append_ws (l : List Char) (c : Char) (hc : isJsWs c = true) :
    jsTrim (l ++ [c]) = jsTrim l := by
  unfold jsTrim trimLeftL trimRightL
  rw [List.dropWhile_append]
  by_cases he : (l.dropWhile isJsWs).isEmpty = true
  · rw [if_pos he]
    have h1 : List.dropWhile isJsWs [c] = [] := by simp [List.dropWhile_cons, hc]
    have h2 : l.dropWhile isJsWs = [] := List.isEmpty_iff.mp he
    rw [h1, h2]
  · rw [if_neg he]
    exact List.rdropWhile_concat_pos isJsWs (l.dropWhile isJsWs) c hc

theorem jsTrim_subset (l : List Char) : ∀ c ∈ jsTrim l, c ∈ l := by
  intro c hc
  unfold jsTrim trimLeftL trimRightL at hc
  have h1 := (List.rdropWhile_prefix isJsWs (l.dropWhile isJsWs)).sublist.subset hc
  exact (List.dropWhile_sublist _).subset h1

theorem startsL_bt3_mem (x : List Char) (h : startsL x "```".data = true) :
    btChar ∈ x := by
  unfold startsL at h
  obtain ⟨t, ht⟩ := List.isPrefixOf_iff_prefix.mp h
  rw [← ht]
  have : btChar ∈ "```".data := by decide
  exact List.mem_append_left _ this

theorem fenced_data_eq (t : String) :
    ("```json\n" ++ t ++ "\n```" : String).data
      = "```json\n".data ++ (t.data ++ "\n```".data) := by
  simp [String.data_append]

/-- C6 (amended): for every raw text `t` containing no backtick, `recover` of
`t` wrapped in triple-backtick fences with the language tag `json` equals
`recover t` — the fence regex `/```json?\n?/g` removes only `json`-tagged
opening fences (plus the anchored closing fence), so the equivalence holds
for that tag; a bare or differently-tagged fence is not fully stripped (see
the counterexample). -/
theorem recover_json_fenced_eq_unfenced (t : String)
    (hbt : ∀ c ∈ t.data, c ≠ btChar) :
    recover ("```json\n" ++ t ++ "\n```") = recover t := by
  unfold recover
  rw [fenced_data_eq]
  -- the fenced text is already trim-stable
  have htrim : jsTrim ("```json\n".data ++ (t.data ++ "\n```".data))
      = "```json\n".data ++ (t.data ++ "\n```".data) := by
    apply jsTrim_eq_self
    · intro c l hcl
      have h8 : "```json\n".data ++ (t.data ++ "\n```".data)
          = '`' :: ("``json\n".data ++ (t.data ++ "\n```".data)) := rfl
      rw [h8] at hcl
      rw [← ((List.cons.injEq _ _ _ _).mp hcl).1]
      decide
    · intro c hc
      have hassoc : "```json\n".data ++ (t.data ++ "\n```".data)
          = ("```json\n".data ++ t.data) ++ "\n```".data := by
        simp [List.append_assoc]
      rw [hassoc, List.getLast?_append_of_ne_nil _ (by decide)] at hc
      have : c = '`' := by
        have he : ("\n```".data).getLast? = some '`' := by decide
        rw [he] at hc
        exact (Option.some.injEq _ _ ▸ hc).symm
      rw [this]
      decide
  rw [htrim]
  -- the fenced text starts with three backticks
  have hstart : startsL ("```json\n".data ++ (t.data ++ "\n```".data)) "```".data
      = true := rfl
  -- the unfenced side never enters the fence stage
  have hstart2 : startsL (jsTrim t.data) "```".data = false := by
    rw [Bool.eq_false_iff]
    intro h
    exact hbt btChar (jsTrim_subset t.data btChar (startsL_bt3_mem _ h)) rfl
  unfold fenceStage
  rw [hstart, hstart2]
  simp only [Bool.false_eq_true, if_false, if_true]
  -- the opening fence is consumed by the first replace
  have hrep1 : rep1 ("```json\n".data ++ (t.data ++ "\n```".data))
      = t.data ++ "\n```".data := by
    unfold rep1
    have hcons : "```json\n".data ++ (t.data ++ "\n```".data)
        = '`' :: '`' :: '`' :: 'j' :: 's' :: 'o' :: 'n' :: '\n'
            :: (t.data ++ "\n```".data) := rfl
    have hlen : ("```json\n".data ++ (t.data ++ "\n```".data)).length
        = (t.data ++ "\n```".data).length + 8 := by
      simp
    rw [hlen, hcons]
    have hstep : rep1Go ((t.data ++ "\n```".data).length + 8)
        ('`' :: '`' :: '`' :: 'j' :: 's' :: 'o' :: 'n' :: '\n'
          :: (t.data ++ "\n```".data))
        = rep1Go ((t.data ++ "\n```".data).length + 7) (t.data ++ "\n```".data) := by
      rfl
    rw [hstep]
    exact rep1Go_no_bt t.data hbt _ (by simp)
  rw [hrep1]
  -- the anchored closing-fence replace removes the final three backticks
  have hsplit : t.data ++ "\n```".data = t.data ++ ['\n', '`', '`', '`'] := rfl
  have hrep2 : rep2 (t.data ++ "\n```".data) = t.data ++ ['\n'] := by
    unfold rep2
    rw [hsplit]
    have hno : endsL (t.data ++ ['\n', '`', '`', '`']) "```\n".data = false := by
      rw [Bool.eq_false_iff]
      intro h
      have := (endsL_append4_iff t.data '\n' '`' '`' '`' "```\n".data (by decide)).mp h
      exact absurd this (by decide)
    rw [hno]
    simp only [Bool.false_eq_true, if_false]
    have hyes : endsL (t.data ++ ['\n', '`', '`', '`']) "```".data = true := by
      unfold endsL
      apply List.isSuffixOf_iff_suffix.mpr
      have : t.data ++ ['\n', '`', '`', '`'] = (t.data ++ ['\n']) ++ "```".data := by
        simp
      rw [this]
      exact List.suffix_append _ _
    rw [hyes]
    simp only [if_true]
    have hlen4 : (t.data ++ ['\n', '`', '`', '`']).length - 3 = (t.data ++ ['\n']).length := by
      simp
    have hre : t.data ++ ['\n', '`', '`', '`'] = (t.data ++ ['\n']) ++ "```".data := by
      simp
    rw [hlen4, hre]
    exact List.take_left' rfl
  rw [hrep2, jsTrim_append_ws t.data '\n' (by decide)]

/-- Witness for C6 (amended) at a concrete backtick-free valid JSON text. -/
theorem recover_json_fenced_eq_unfenced_witness :
    recover ("```json\n" ++ "\x7b\"score\":7,\"summary\":\"ok\",\"issues\":[]\x7d" ++ "\n```")
      = recover "\x7b\"score\":7,\"summary\":\"ok\",\"issues\":[]\x7d" :=
  recover_json_fenced_eq_unfenced _ (by decide)

/-- C6 counterexample: for a fence with no language tag the claim fails — the
fence regex only strips `json`-tagged opening fences, so the bare opening
fence survives, parsing fails, and `recover` returns the degraded result,
while the unfenced text recovers to the actual object. -/
theorem recover_bare_fence_counterexample :
    recover "```\n\x7b\"score\":7,\"summary\":\"ok\",\"issues\":[]\x7d\n```"
        = degradedJson
      ∧ recover "\x7b\"score\":7,\"summary\":\"ok\",\"issues\":[]\x7d"
          = .obj [("score", .num 7), ("summary", .str "ok"), ("issues", .arr [])]
      ∧ (scoreNum (recover "```\n\x7b\"score\":7,\"summary\":\"ok\",\"issues\":[]\x7d\n```")
          == scoreNum (recover "\x7b\"score\":7,\"summary\":\"ok\",\"issues\":[]\x7d"))
          = false :=
  ⟨rfl, rfl, by decide⟩

theorem digitChar10_isDigit (d : Nat) (h : d < 10) :
    (digitChar10 d).isDigit = true := by
  interval_cases d <;> decide

theorem digitChar10_val (d : Nat) (h : d < 10) :
    (digitChar10 d).toNat - 48 = d := by
  interval_cases d <;> decide

theorem digitChar10_not_ws (d : Nat) (h : d < 10) :
    isJsonWs (digitChar10 d) = false := by
  interval_cases d <;> decide

theorem natToCharsGo_eq_digits :
    ∀ (fuel n : Nat) (acc : List Char), 1 ≤ n → n < 10 ^ fuel →
      natToCharsGo fuel n acc = ((Nat.digits 10 n).map digitChar10).reverse ++ acc := by
  intro fuel
  induction fuel with
  | zero =>
    intro n acc h1 h2
    simp at h2
    omega
  | succ f ih =>
    intro n acc h1 h2
    by_cases hn : n < 10
    · have hstep : natToCharsGo (f + 1) n acc = digitChar10 (n % 10) :: acc := by
        conv_lhs => rw [natToCharsGo]
        rw [if_pos hn]
      rw [hstep, Nat.digits_def' (by norm_num : (1 : Nat) < 10) (by omega : 0 < n),
        Nat.div_eq_of_lt hn]
      simp
    · have hstep : natToCharsGo (f + 1) n acc
          = natToCharsGo f (n / 10) (digitChar10 (n % 10) :: acc) := by
        conv_lhs => rw [natToCharsGo]
        rw [if_neg hn]
      rw [hstep, ih (n / 10) (digitChar10 (n % 10) :: acc) (by omega)
        (Nat.div_lt_of_lt_mul (by rw [Nat.pow_succ] at h2; omega))]
      rw [Nat.digits_def' (by norm_num : (1 : Nat) < 10) (by omega : 0 < n)]
      simp [List.append_assoc]

theorem natToChars_eq (n : Nat) :
    natToChars n
      = if n = 0 then ['0'] else ((Nat.digits 10 n).map digitChar10).reverse := by
  unfold natToChars
  by_cases h : n = 0
  · subst h
    rfl
  · rw [if_neg h,
      natToCharsGo_eq_digits (n + 1) n [] (by omega)
        (lt_of_lt_of_le (Nat.lt_pow_self (by norm_num) n)
          (Nat.pow_le_pow_right (by norm_num) (by omega)))]
    simp

theorem natToChars_all_digits (n : Nat) :
    ∀ c ∈ natToChars n, c.isDigit = true := by
  rw [natToChars_eq]
  by_cases h : n = 0
  · simp [h]
  · rw [if_neg h]
    intro c hc
    rw [List.mem_reverse] at hc
    obtain ⟨d, hd, rfl⟩ := List.mem_map.mp hc
    exact digitChar10_isDigit d (Nat.digits_lt_base (by norm_num) hd)

theorem natToChars_ne_nil (n : Nat) : natToChars n ≠ [] := by
  rw [natToChars_eq]
  by_cases h : n = 0
  · simp [h]
  · rw [if_neg h]
    simp [Nat.digits_ne_nil_iff_ne_zero.mpr h]

theorem digitsFold_rev_digits (ds : List Nat) (hds : ∀ d ∈ ds, d < 10) :
    ∀ a : Nat,
      ((ds.map digitChar10).reverse).foldl (fun a c => a * 10 + (c.toNat - 48)) a
        = Nat.ofDigits 10 ds + a * 10 ^ ds.length := by
  induction ds with
  | nil =>
    intro a
    simp [Nat.ofDigits_nil]
  | cons d ds ih =>
    intro a
    simp only [List.map_cons, List.reverse_cons]
    rw [List.foldl_append]
    rw [ih (fun x hx => hds x (by simp [hx])) a]
    simp only [List.foldl_cons, List.foldl_nil]
    rw [digitChar10_val d (hds d (by simp)), Nat.ofDigits_cons]
    rw [List.length_cons, pow_succ]
    ring

theorem digitsFold_natToChars (m : Nat) : digitsFold (natToChars m) = m := by
  unfold digitsFold
  rw [natToChars_eq]
  by_cases h : m = 0
  · subst h
    rfl
  · rw [if_neg h,
      digitsFold_rev_digits (Nat.digits 10 m)
        (fun d hd => Nat.digits_lt_base (by norm_num) hd) 0]
    simp [Nat.ofDigits_digits]

theorem takeWhile_all_true (p : Char → Bool) (xs : List Char)
    (hall : ∀ c ∈ xs, p c = true) :
    ∀ rest, (∀ c l', rest = c :: l' → p c = false) →
      (xs ++ rest).takeWhile p = xs ∧ (xs ++ rest).dropWhile p = rest := by
  induction xs with
  | nil =>
    intro rest hr
    constructor
    · cases rest with
      | nil => rfl
      | cons c l' => simp [List.takeWhile_cons, hr c l' rfl]
    · cases rest with
      | nil => rfl
      | cons c l' => simp [List.dropWhile_cons, hr c l' rfl]
  | cons x xs ih =>
    intro rest hr
    have hx : p x = true := hall x (by simp)
    have hih := ih (fun c hc => hall c (by simp [hc])) rest hr
    constructor <;>
      simp [List.takeWhile_cons, List.dropWhile_cons, hx, hih.1, hih.2]

theorem parseNumberBody_not_neg (c : Char) (l : List Char) (h : c ≠ '-') :
    parseNumberBody (c :: l)
      = (if ((c :: l).takeWhile Char.isDigit).isEmpty then .error .other
         else .ok ((digitsFold ((c :: l).takeWhile Char.isDigit) : Int),
           (c :: l).dropWhile Char.isDigit)) := by
  unfold parseNumberBody
  split
  · next r heq =>
    exact absurd ((List.cons.injEq _ _ _ _).mp heq).1 h
  · rfl

theorem parseNumberBody_intToChars (n : Int) (rest : List Char)
    (hnd : ∀ c l', rest = c :: l' → c.isDigit = false) :
    parseNumberBody (intToChars n ++ rest) = .ok (n, rest) := by
  unfold intToChars
  by_cases hneg : n < 0
  · rw [if_pos hneg]
    have hsp := takeWhile_all_true Char.isDigit (natToChars n.natAbs)
      (natToChars_all_digits _) rest hnd
    rw [List.cons_append]
    show (let ds := (natToChars n.natAbs ++ rest).takeWhile Char.isDigit;
      if ds.isEmpty then Except.error ParseErr.other
      else .ok (-(digitsFold ds : Int),
        (natToChars n.natAbs ++ rest).dropWhile Char.isDigit)) = _
    rw [hsp.1, hsp.2]
    simp only
    rw [if_neg (by
      intro he
      exact natToChars_ne_nil n.natAbs (List.isEmpty_iff.mp he))]
    rw [digitsFold_natToChars]
    have hval : -((n.natAbs : Nat) : Int) = n := by omega
    rw [hval]
  · rw [if_neg hneg]
    obtain ⟨c, cs, hc⟩ : ∃ c cs, natToChars n.toNat = c :: cs := by
      cases hh : natToChars n.toNat with
      | nil => exact absurd hh (natToChars_ne_nil _)
      | cons c cs => exact ⟨c, cs, rfl⟩
    have hcd : c.isDigit = true := natToChars_all_digits _ c (by rw [hc]; simp)
    have hcne : c ≠ '-' := fun he => by
      rw [he] at hcd
      exact absurd hcd (by decide)
    have hsp := takeWhile_all_true Char.isDigit (natToChars n.toNat)
      (natToChars_all_digits _) rest hnd
    rw [hc, List.cons_append, parseNumberBody_not_neg c (cs ++ rest) hcne,
      ← List.cons_append, ← hc, hsp.1, hsp.2]
    rw [if_neg (by
      intro he
      exact natToChars_ne_nil n.toNat (List.isEmpty_iff.mp he))]
    rw [digitsFold_natToChars]
    have hval : ((n.toNat : Nat) : Int) = n := by omega
    rw [hval]

theorem hexVal_hexDigitChar (d : Nat) (h : d < 16) :
    hexVal (hexDigitChar d) = some d := by
  interval_cases d <;> decide

theorem parseStringBody_escBody (s : List Char) :
    ∀ rest, parseStringBody (escBody s ++ '"' :: rest) = .ok (s, rest) := by
  induction s with
  | nil =>
    intro rest
    rw [escBody, List.nil_append]
    unfold parseStringBody
    simp
  | cons c cs ih =>
    intro rest
    rw [escBody, List.append_assoc]
    unfold escSB
    by_cases h1 : c = '"'
    · rw [if_pos h1]
      subst h1
      unfold parseStringBody
      simp [pcons, ih]
    · rw [if_neg h1]
      by_cases h2 : c = '\\'
      · rw [if_pos h2]
        subst h2
        unfold parseStringBody
        simp [pcons, ih]
      · rw [if_neg h2]
        by_cases h3 : c = '\x08'
        · rw [if_pos h3]
          subst h3
          unfold parseStringBody
          simp [pcons, ih]
        · rw [if_neg h3]
          by_cases h4 : c = '\x0c'
          · rw [if_pos h4]
            subst h4
            unfold parseStringBody
            simp [pcons, ih]
          · rw [if_neg h4]
            by_cases h5 : c = '\n'
            · rw [if_pos h5]
              subst h5
              unfold parseStringBody
              simp [pcons, ih]
            · rw [if_neg h5]
              by_cases h6 : c = '\r'
              · rw [if_pos h6]
                subst h6
                unfold parseStringBody
                simp [pcons, ih]
              · rw [if_neg h6]
                by_cases h7 : c = '\t'
                · rw [if_pos h7]
                  subst h7
                  unfold parseStringBody
                  simp [pcons, ih]
                · rw [if_neg h7]
                  by_cases h8 : c.toNat < 32
                  · rw [if_pos h8]
                    have hh3 : hexVal (hexDigitChar (c.toNat / 16)) = some (c.toNat / 16) :=
                      hexVal_hexDigitChar _ (by omega)
                    have hh4 : hexVal (hexDigitChar (c.toNat % 16)) = some (c.toNat % 16) :=
                      hexVal_hexDigitChar _ (by omega)
                    have hv : ((0 * 16 + 0) * 16 + c.toNat / 16) * 16 + c.toNat % 16
                        = c.toNat := by omega
                    simp only [List.cons_append, List.nil_append]
                    unfold parseStringBody
                    simp only [reduceIte, hh3, hh4,
                      show hexVal '0' = some 0 from by decide]
                    rw [if_pos (Or.inl (by omega : ((0 * 16 + 0) * 16 + c.toNat / 16) * 16 + c.toNat % 16 < 55296))]
                    rw [show ((0 * 16 + 0) * 16 + c.toNat / 16) * 16 + c.toNat % 16 = c.toNat from by omega]
                    rw [Char.ofNat_toNat]
                    simp [pcons, ih]
                  · rw [if_neg h8]
                    simp only [List.cons_append, List.nil_append]
                    unfold parseStringBody
                    simp [pcons, ih, h1, h2, h8]

theorem isDigit_not_ws (c : Char) (h : c.isDigit = true) : isJsonWs c = false := by
  rw [Bool.eq_false_iff]
  intro hw
  unfold isJsonWs at hw
  rcases (by simpa using hw : ((c = ' ' ∨ c = '\t') ∨ c = '\n') ∨ c = '\r') with
    ((h1 | h1) | h1) | h1 <;>
    (rw [h1] at h; exact absurd h (by decide))

theorem isDigit_ne (c : Char) (h : c.isDigit = true) (d : Char)
    (hd : d.isDigit = false) : c ≠ d := by
  intro he
  rw [he, hd] at h
  exact Bool.noConfusion h

theorem stringifyJson_head (j : Json) :
    ∃ c l, stringifyJson j = c :: l ∧ isJsonWs c = false
      ∧ c ≠ ']' ∧ c ≠ '\x7d' ∧ c ≠ ',' := by
  cases j with
  | null => exact ⟨'n', _, rfl, by decide, by decide, by decide, by decide⟩
  | bool b =>
    cases b with
    | false => exact ⟨'f', _, rfl, by decide, by decide, by decide, by decide⟩
    | true => exact ⟨'t', _, rfl, by decide, by decide, by decide, by decide⟩
  | num n =>
    show ∃ c l, intToChars n = c :: l ∧ _
    unfold intToChars
    by_cases hn : n < 0
    · rw [if_pos hn]
      exact ⟨'-', _, rfl, by decide, by decide, by decide, by decide⟩
    · rw [if_neg hn]
      obtain ⟨c, cs, hc⟩ : ∃ c cs, natToChars n.toNat = c :: cs := by
        cases hh : natToChars n.toNat with
        | nil => exact absurd hh (natToChars_ne_nil _)
        | cons c cs => exact ⟨c, cs, rfl⟩
      have hcd : c.isDigit = true := natToChars_all_digits _ c (by rw [hc]; simp)
      exact ⟨c, cs, hc, isDigit_not_ws c hcd, isDigit_ne c hcd _ (by decide),
        isDigit_ne c hcd _ (by decide), isDigit_ne c hcd _ (by decide)⟩
  | str s => exact ⟨'"', _, rfl, by decide, by decide, by decide, by decide⟩
  | arr xs => exact ⟨'[', _, rfl, by decide, by decide, by decide, by decide⟩
  | obj fs => exact ⟨'\x7b', _, rfl, by decide, by decide, by decide, by decide⟩

theorem skipWs_cons_not_ws (c : Char) (l : List Char) (h : isJsonWs c = false) :
    skipWs (c :: l) = c :: l := by
  simp [skipWs, List.dropWhile_cons, h]

theorem jsSetKey_append (acc : List (String × Json)) (k : String) (v : Json)
    (h : ∀ m ∈ acc, m.1 ≠ k) : jsSetKey acc k v = acc ++ [(k, v)] := by
  induction acc with
  | nil => rfl
  | cons m ms ih =>
    obtain ⟨k', v'⟩ := m
    rw [jsSetKey, if_neg (h (k', v') (by simp)), ih (fun x hx => h x (by simp [hx]))]
    rfl

theorem foldl_jsSetKey_disjoint (ps : List (String × Json)) :
    ∀ acc, (∀ m ∈ acc, ∀ m' ∈ ps, m.1 ≠ m'.1) → keysNodupB ps = true →
      ps.foldl (fun acc kv => jsSetKey acc kv.1 kv.2) acc = acc ++ ps := by
  induction ps with
  | nil =>
    intro acc _ _
    simp
  | cons m ms ih =>
    intro acc hdisj hnd
    obtain ⟨k, v⟩ := m
    rw [keysNodupB, Bool.and_eq_true] at hnd
    have hany : ∀ m' ∈ ms, m'.1 ≠ k := by
      intro m' hm'
      have h1 := hnd.1
      rw [Bool.not_eq_true'] at h1
      have := List.any_eq_false.mp h1 m' hm'
      simpa using this
    rw [List.foldl_cons]
    rw [show jsSetKey acc (k, v).1 (k, v).2 = jsSetKey acc k v from rfl]
    rw [jsSetKey_append acc k v (fun x hx => hdisj x hx (k, v) (by simp))]
    rw [ih (acc ++ [(k, v)]) ?_ hnd.2]
    · simp
    · intro x hx m' hm'
      rcases List.mem_append.mp hx with hmem | hmem
      · exact hdisj x hmem m' (by simp [hm'])
      · simp at hmem
        subst hmem
        exact fun he => hany m' hm' (he.symm)

theorem jsObjFromPairs_eq_self (ps : List (String × Json))
    (h : keysNodupB ps = true) : jsObjFromPairs ps = ps := by
  unfold jsObjFromPairs
  rw [foldl_jsSetKey_disjoint ps [] (by simp) h]
  simp

theorem one_le_wValue (j : Json) : 1 ≤ wValue j := by
  cases j <;> simp [wValue]

theorem one_le_wElems (xs : List Json) : 1 ≤ wElems xs := by
  cases xs <;> simp [wElems]

theorem one_le_wMembers (fs : List (String × Json)) : 1 ≤ wMembers fs := by
  cases fs with
  | nil => simp [wMembers]
  | cons m fs =>
    obtain ⟨k, v⟩ := m
    simp [wMembers]

theorem stringifyArr_cons (x : Json) (xs : List Json) :
    stringifyArr (x :: xs)
      = stringifyJson x ++ arrTailText xs := by
  cases xs with
  | nil => simp [stringifyArr, arrTailText]
  | cons y ys => rfl

theorem stringifyFields_cons (k : String) (v : Json) (fs : List (String × Json)) :
    stringifyFields ((k, v) :: fs)
      = (stringifyStr k ++ ':' :: stringifyJson v) ++ fieldsTailText fs := by
  cases fs with
  | nil => simp [stringifyFields, fieldsTailText]
  | cons f fs' => rfl

theorem intToChars_head (n : Int) :
    ∃ c cs, intToChars n = c :: cs ∧ (c = '-' ∨ c.isDigit = true) := by
  unfold intToChars
  by_cases hn : n < 0
  · rw [if_pos hn]
    exact ⟨'-', _, rfl, Or.inl rfl⟩
  · rw [if_neg hn]
    obtain ⟨c, cs, hc⟩ : ∃ c cs, natToChars n.toNat = c :: cs := by
      cases hh : natToChars n.toNat with
      | nil => exact absurd hh (natToChars_ne_nil _)
      | cons c cs => exact ⟨c, cs, rfl⟩
    exact ⟨c, cs, hc, Or.inr (natToChars_all_digits _ c (by rw [hc]; simp))⟩

theorem arrTail_head_not_digit (xs : List Json) (rest : List Char) :
    ∀ c l', (arrTailText xs ++ ']' :: rest) = c :: l' → c.isDigit = false := by
  cases xs with
  | nil =>
    intro c l' h
    rw [show arrTailText [] = [] from rfl, List.nil_append] at h
    rw [← ((List.cons.injEq _ _ _ _).mp h).1]
    decide
  | cons y ys =>
    intro c l' h
    rw [show arrTailText (y :: ys) = ',' :: stringifyArr (y :: ys) from rfl,
      List.cons_append] at h
    rw [← ((List.cons.injEq _ _ _ _).mp h).1]
    decide

theorem fieldsTail_head_not_digit (fs : List (String × Json)) (rest : List Char) :
    ∀ c l', (fieldsTailText fs ++ '\x7d' :: rest) = c :: l' → c.isDigit = false := by
  cases fs with
  | nil =>
    intro c l' h
    rw [show fieldsTailText [] = [] from rfl, List.nil_append] at h
    rw [← ((List.cons.injEq _ _ _ _).mp h).1]
    decide
  | cons m ms =>
    intro c l' h
    rw [show fieldsTailText (m :: ms) = ',' :: stringifyFields (m :: ms) from rfl,
      List.cons_append] at h
    rw [← ((List.cons.injEq _ _ _ _).mp h).1]
    decide

theorem parse_stringify (fuel : Nat) :
    (∀ j rest, wValue j ≤ fuel → wfJson j = true →
      (∀ c l', rest = c :: l' → c.isDigit = false) →
      parseValue fuel (stringifyJson j ++ rest) = .ok (j, rest))
    ∧ (∀ xs rest, wElems xs ≤ fuel → wfElems xs = true →
      parseElems fuel (stringifyArr xs ++ ']' :: rest) = .ok (xs, rest))
    ∧ (∀ xs rest, wElems xs ≤ fuel → wfElems xs = true →
      parseElemsTail fuel (arrTailText xs ++ ']' :: rest) = .ok (xs, rest))
    ∧ (∀ fs rest, wMembers fs ≤ fuel → wfMembers fs = true →
      parseMembers fuel (stringifyFields fs ++ '\x7d' :: rest) = .ok (fs, rest))
    ∧ (∀ fs rest, wMembers fs ≤ fuel → wfMembers fs = true →
      parseMembersTail fuel (fieldsTailText fs ++ '\x7d' :: rest) = .ok (fs, rest)) := by
  induction fuel with
  | zero =>
    refine ⟨?_, ?_, ?_, ?_, ?_⟩
    · intro j rest hw _ _
      exact absurd hw (by have := one_le_wValue j; omega)
    · intro xs rest hw _
      exact absurd hw (by have := one_le_wElems xs; omega)
    · intro xs rest hw _
      exact absurd hw (by have := one_le_wElems xs; omega)
    · intro fs rest hw _
      exact absurd hw (by have := one_le_wMembers fs; omega)
    · intro fs rest hw _
      exact absurd hw (by have := one_le_wMembers fs; omega)
  | succ fuel ih =>
    obtain ⟨ihP, ihA, ihT, ihM, ihMT⟩ := ih
    refine ⟨?_, ?_, ?_, ?_, ?_⟩
    · -- parseValue
      intro j rest hw hwf hnd
      cases j with
      | null =>
        have hcons : stringifyJson Json.null ++ rest = 'n' :: ('u' :: 'l' :: 'l' :: rest) := rfl
        rw [hcons]
        unfold parseValue
        rw [skipWs_cons_not_ws _ _ (by decide)]
        dsimp only
        rw [if_pos rfl]
        have hud : dropLit "ull".data ('u' :: 'l' :: 'l' :: rest) = some rest := by
          have : "ull".data = ['u', 'l', 'l'] := rfl
          rw [this]
          simp [dropLit]
        rw [hud]
      | bool b =>
        cases b with
        | true =>
          have hcons : stringifyJson (Json.bool true) ++ rest
              = 't' :: ('r' :: 'u' :: 'e' :: rest) := rfl
          rw [hcons]
          unfold parseValue
          rw [skipWs_cons_not_ws _ _ (by decide)]
          dsimp only
          rw [if_neg (by decide : ¬('t' = 'n')), if_pos rfl]
          have hud : dropLit "rue".data ('r' :: 'u' :: 'e' :: rest) = some rest := by
            have : "rue".data = ['r', 'u', 'e'] := rfl
            rw [this]
            simp [dropLit]
          rw [hud]
        | false =>
          have hcons : stringifyJson (Json.bool false) ++ rest
              = 'f' :: ('a' :: 'l' :: 's' :: 'e' :: rest) := rfl
          rw [hcons]
          unfold parseValue
          rw [skipWs_cons_not_ws _ _ (by decide)]
          dsimp only
          rw [if_neg (by decide : ¬('f' = 'n')), if_neg (by decide : ¬('f' = 't')),
            if_pos rfl]
          have hud : dropLit "alse".data ('a' :: 'l' :: 's' :: 'e' :: rest) = some rest := by
            have : "alse".data = ['a', 'l', 's', 'e'] := rfl
            rw [this]
            simp [dropLit]
          rw [hud]
      | num n =>
        obtain ⟨c, cs, hc, hcd⟩ := intToChars_head n
        have hfacts : isJsonWs c = false ∧ c ≠ 'n' ∧ c ≠ 't' ∧ c ≠ 'f'
            ∧ c ≠ '"' ∧ c ≠ '[' ∧ c ≠ '\x7b' := by
          rcases hcd with h | h
          · subst h
            exact ⟨by decide, by decide, by decide, by decide, by decide, by decide,
              by decide⟩
          · exact ⟨isDigit_not_ws c h, isDigit_ne c h _ (by decide),
              isDigit_ne c h _ (by decide), isDigit_ne c h _ (by decide),
              isDigit_ne c h _ (by decide), isDigit_ne c h _ (by decide),
              isDigit_ne c h _ (by decide)⟩
        have hcons : stringifyJson (Json.num n) ++ rest = c :: (cs ++ rest) := by
          show intToChars n ++ rest = c :: (cs ++ rest)
          rw [hc, List.cons_append]
        rw [hcons]
        unfold parseValue
        rw [skipWs_cons_not_ws _ _ hfacts.1]
        dsimp only
        rw [if_neg hfacts.2.1, if_neg hfacts.2.2.1, if_neg hfacts.2.2.2.1,
          if_neg hfacts.2.2.2.2.1, if_neg hfacts.2.2.2.2.2.1,
          if_neg hfacts.2.2.2.2.2.2]
        rw [if_pos (by
          rcases hcd with h | h
          · simp [h]
          · simp [h])]
        rw [← List.cons_append, ← hc, parseNumberBody_intToChars n rest hnd]
      | str s =>
        have hcons : stringifyJson (Json.str s) ++ rest
            = '"' :: (escBody s.data ++ '"' :: rest) := by
          show ('"' :: (escBody s.data ++ ['"'])) ++ rest = _
          simp [List.append_assoc]
        rw [hcons]
        unfold parseValue
        rw [skipWs_cons_not_ws _ _ (by decide)]
        dsimp only
        rw [if_neg (by decide : ¬('"' = 'n')), if_neg (by decide : ¬('"' = 't')),
          if_neg (by decide : ¬('"' = 'f')), if_pos rfl]
        rw [parseStringBody_escBody s.data rest]
      | arr xs =>
        have hwf' : wfElems xs = true := by rw [wfJson] at hwf; exact hwf
        have hw' : wElems xs ≤ fuel := by rw [wValue] at hw; omega
        have hcons : stringifyJson (Json.arr xs) ++ rest
            = '[' :: (stringifyArr xs ++ ']' :: rest) := by
          show ('[' :: (stringifyArr xs ++ [']'])) ++ rest = _
          simp [List.append_assoc]
        rw [hcons]
        unfold parseValue
        rw [skipWs_cons_not_ws _ _ (by decide)]
        dsimp only
        rw [if_neg (by decide : ¬('[' = 'n')), if_neg (by decide : ¬('[' = 't')),
          if_neg (by decide : ¬('[' = 'f')), if_neg (by decide : ¬('[' = '"')),
          if_pos rfl]
        rw [ihA xs rest hw' hwf']
      | obj fs =>
        rw [wfJson, Bool.and_eq_true] at hwf
        have hw' : wMembers fs ≤ fuel := by rw [wValue] at hw; omega
        have hcons : stringifyJson (Json.obj fs) ++ rest
            = '\x7b' :: (stringifyFields fs ++ '\x7d' :: rest) := by
          show ('\x7b' :: (stringifyFields fs ++ ['\x7d'])) ++ rest = _
          simp [List.append_assoc]
        rw [hcons]
        unfold parseValue
        rw [skipWs_cons_not_ws _ _ (by decide)]
        dsimp only
        rw [if_neg (by decide : ¬('\x7b' = 'n')), if_neg (by decide : ¬('\x7b' = 't')),
          if_neg (by decide : ¬('\x7b' = 'f')), if_neg (by decide : ¬('\x7b' = '"')),
          if_neg (by decide : ¬('\x7b' = '[')), if_pos rfl]
        rw [ihM fs rest hw' hwf.2]
        dsimp only
        rw [jsObjFromPairs_eq_self fs hwf.1]
    · -- parseElems
      intro xs rest hw hwf
      cases xs with
      | nil =>
        show parseElems (fuel + 1) (']' :: rest) = _
        unfold parseElems
        rw [skipWs_cons_not_ws _ _ (by decide)]
        dsimp only
        rw [if_pos rfl]
      | cons x xs' =>
        rw [stringifyArr_cons, List.append_assoc]
        obtain ⟨c, l, hcl, hws, hne1, _, _⟩ := stringifyJson_head x
        rw [hcl, List.cons_append]
        unfold parseElems
        rw [skipWs_cons_not_ws _ _ hws]
        dsimp only
        rw [if_neg hne1]
        rw [← List.cons_append, ← hcl]
        rw [wElems] at hw
        have hm : max (wValue x) (wElems xs') ≤ fuel := by omega
        rw [wfElems, Bool.and_eq_true] at hwf
        rw [ihP x _ (le_trans (le_max_left _ _) hm) hwf.1
          (arrTail_head_not_digit xs' rest)]
        dsimp only
        rw [ihT xs' rest (le_trans (le_max_right _ _) hm) hwf.2]
    · -- parseElemsTail
      intro xs rest hw hwf
      cases xs with
      | nil =>
        show parseElemsTail (fuel + 1) (']' :: rest) = _
        unfold parseElemsTail
        rw [skipWs_cons_not_ws _ _ (by decide)]
        dsimp only
        rw [if_pos rfl]
      | cons x xs' =>
        show parseElemsTail (fuel + 1)
          ((',' :: stringifyArr (x :: xs')) ++ ']' :: rest) = _
        rw [List.cons_append]
        unfold parseElemsTail
        rw [skipWs_cons_not_ws _ _ (by decide)]
        dsimp only
        rw [if_neg (by decide : ¬(',' = ']')), if_pos rfl]
        rw [stringifyArr_cons, List.append_assoc]
        rw [wElems] at hw
        have hm : max (wValue x) (wElems xs') ≤ fuel := by omega
        rw [wfElems, Bool.and_eq_true] at hwf
        rw [ihP x _ (le_trans (le_max_left _ _) hm) hwf.1
          (arrTail_head_not_digit xs' rest)]
        dsimp only
        rw [ihT xs' rest (le_trans (le_max_right _ _) hm) hwf.2]
    · -- parseMembers
      intro fs rest hw hwf
      cases fs with
      | nil =>
        show parseMembers (fuel + 1) ('\x7d' :: rest) = _
        unfold parseMembers
        rw [skipWs_cons_not_ws _ _ (by decide)]
        dsimp only
        rw [if_pos rfl]
      | cons m fs' =>
        obtain ⟨k, v⟩ := m
        rw [stringifyFields_cons, List.append_assoc]
        have hshape : (stringifyStr k ++ ':' :: stringifyJson v)
            ++ (fieldsTailText fs' ++ '\x7d' :: rest)
            = '"' :: (escBody k.data ++ '"'
                :: (':' :: (stringifyJson v
                  ++ (fieldsTailText fs' ++ '\x7d' :: rest)))) := by
          show (('"' :: (escBody k.data ++ ['"'])) ++ ':' :: stringifyJson v) ++ _ = _
          simp [List.append_assoc]
        rw [hshape]
        unfold parseMembers
        rw [skipWs_cons_not_ws _ _ (by decide)]
        dsimp only
        rw [if_neg (by decide : ¬('"' = '\x7d')), if_pos rfl]
        rw [parseStringBody_escBody k.data]
        dsimp only
        rw [skipWs_cons_not_ws _ _ (by decide)]
        dsimp only
        rw [if_pos rfl]
        rw [wMembers] at hw
        have hm : max (wValue v) (wMembers fs') ≤ fuel := by omega
        rw [wfMembers, Bool.and_eq_true] at hwf
        rw [ihP v _ (le_trans (le_max_left _ _) hm) hwf.1
          (fieldsTail_head_not_digit fs' rest)]
        dsimp only
        rw [ihMT fs' rest (le_trans (le_max_right _ _) hm) hwf.2]
    · -- parseMembersTail
      intro fs rest hw hwf
      cases fs with
      | nil =>
        show parseMembersTail (fuel + 1) ('\x7d' :: rest) = _
        unfold parseMembersTail
        rw [skipWs_cons_not_ws _ _ (by decide)]
        dsimp only
        rw [if_pos rfl]
      | cons m fs' =>
        obtain ⟨k, v⟩ := m
        show parseMembersTail (fuel + 1)
          ((',' :: stringifyFields ((k, v) :: fs')) ++ '\x7d' :: rest) = _
        rw [List.cons_append]
        unfold parseMembersTail
        rw [skipWs_cons_not_ws _ _ (by decide)]
        dsimp only
        rw [if_neg (by decide : ¬(',' = '\x7d')), if_pos rfl]
        rw [stringifyFields_cons, List.append_assoc]
        have hshape : (stringifyStr k ++ ':' :: stringifyJson v)
            ++ (fieldsTailText fs' ++ '\x7d' :: rest)
            = '"' :: (escBody k.data ++ '"'
                :: (':' :: (stringifyJson v
                  ++ (fieldsTailText fs' ++ '\x7d' :: rest)))) := by
          show (('"' :: (escBody k.data ++ ['"'])) ++ ':' :: stringifyJson v) ++ _ = _
          simp [List.append_assoc]
        rw [hshape]
        rw [skipWs_cons_not_ws _ _ (by decide)]
        dsimp only
        rw [if_pos rfl]
        rw [parseStringBody_escBody k.data]
        dsimp only
        rw [skipWs_cons_not_ws _ _ (by decide)]
        dsimp only
        rw [if_pos rfl]
        rw [wMembers] at hw
        have hm : max (wValue v) (wMembers fs') ≤ fuel := by omega
        rw [wfMembers, Bool.and_eq_true] at hwf
        rw [ihP v _ (le_trans (le_max_left _ _) hm) hwf.1
          (fieldsTail_head_not_digit fs' rest)]
        dsimp only
        rw [ihMT fs' rest (le_trans (le_max_right _ _) hm) hwf.2]

theorem w_le_stringify_len (n : Nat) :
    (∀ j, wValue j ≤ n → wValue j ≤ (stringifyJson j).length)
    ∧ (∀ xs, wElems xs ≤ n → wElems xs ≤ (stringifyArr xs).length + 1)
    ∧ (∀ fs, wMembers fs ≤ n → wMembers fs ≤ (stringifyFields fs).length + 1) := by
  induction n with
  | zero =>
    refine ⟨?_, ?_, ?_⟩
    · intro j hw
      exact absurd hw (by have := one_le_wValue j; omega)
    · intro xs hw
      exact absurd hw (by have := one_le_wElems xs; omega)
    · intro fs hw
      exact absurd hw (by have := one_le_wMembers fs; omega)
  | succ n ih =>
    obtain ⟨ihV, ihA, ihM⟩ := ih
    refine ⟨?_, ?_, ?_⟩
    · intro j hw
      cases j with
      | null => exact (by decide : wValue Json.null ≤ (stringifyJson Json.null).length)
      | bool b =>
        cases b with
        | true => exact (by decide : wValue (Json.bool true) ≤ (stringifyJson (Json.bool true)).length)
        | false => exact (by decide : wValue (Json.bool false) ≤ (stringifyJson (Json.bool false)).length)
      | num m =>
        obtain ⟨c, cs, hc, _⟩ := intToChars_head m
        show 1 ≤ (intToChars m).length
        rw [hc]
        simp
      | str s =>
        show 1 ≤ (stringifyStr s).length
        simp [stringifyStr]
      | arr xs =>
        have hx : wElems xs ≤ n := by rw [wValue] at hw; omega
        have h1 := ihA xs hx
        show 1 + wElems xs ≤ ('[' :: (stringifyArr xs ++ [']'])).length
        simp only [List.length_cons, List.length_append, List.length_singleton]
        omega
      | obj fs =>
        have hx : wMembers fs ≤ n := by rw [wValue] at hw; omega
        have h1 := ihM fs hx
        show 1 + wMembers fs ≤ ('\x7b' :: (stringifyFields fs ++ ['\x7d'])).length
        simp only [List.length_cons, List.length_append, List.length_singleton]
        omega
    · intro xs hw
      cases xs with
      | nil => simp [wElems, stringifyArr]
      | cons x xs' =>
        rw [wElems] at hw ⊢
        have hvx : wValue x ≤ n := by omega
        have h1 := ihV x hvx
        rw [stringifyArr_cons]
        simp only [List.length_append]
        cases xs' with
        | nil =>
          have := one_le_wValue x
          simp only [wElems, arrTailText, List.length_nil]
          omega
        | cons y ys =>
          have hxe : wElems (y :: ys) ≤ n := by omega
          have h2 := ihA (y :: ys) hxe
          show 1 + max (wValue x) (wElems (y :: ys))
            ≤ (stringifyJson x).length + (',' :: stringifyArr (y :: ys)).length + 1
          simp only [List.length_cons]
          omega
    · intro fs hw
      cases fs with
      | nil => simp [wMembers, stringifyFields]
      | cons m fs' =>
        obtain ⟨k, v⟩ := m
        rw [wMembers] at hw ⊢
        have hvv : wValue v ≤ n := by omega
        have h1 := ihV v hvv
        rw [stringifyFields_cons]
        simp only [List.length_append, List.length_cons, stringifyStr,
          List.length_singleton]
        cases fs' with
        | nil =>
          have := one_le_wValue v
          simp only [wMembers, fieldsTailText, List.length_nil]
          omega
        | cons f fs'' =>
          have hfe : wMembers (f :: fs'') ≤ n := by omega
          have h2 := ihM (f :: fs'') hfe
          rw [show fieldsTailText (f :: fs'') = ',' :: stringifyFields (f :: fs'') from rfl]
          simp only [List.length_cons]
          omega

theorem wValue_le_stringify (j : Json) : wValue j ≤ (stringifyJson j).length :=
  (w_le_stringify_len (wValue j)).1 j le_rfl

theorem parseJsonText_stringify (j : Json) (hwf : wfJson j = true) :
    parseJsonText (stringifyJson j) = .ok j := by
  have hp := (parse_stringify ((stringifyJson j).length + 1)).1 j []
    (by have := wValue_le_stringify j; omega) hwf
    (by intro c l' h; exact absurd h (by simp))
  rw [List.append_nil] at hp
  unfold parseJsonText
  rw [hp]
  rfl

theorem startsL_cons_ne (c d : Char) (t p : List Char) (h : (d == c) = false) :
    startsL (c :: t) (d :: p) = false := by
  simp only [startsL, List.isPrefixOf, h, Bool.false_and]

theorem getLast_cons_concat (c : Char) (u : List Char) (d : Char) :
    (c :: (u ++ [d])).getLast? = some d := by
  rw [show c :: (u ++ [d]) = (c :: u) ++ [d] from rfl, List.getLast?_concat]

theorem wf_analysis (score : Int) (summary : String) (issues : List Json)
    (hwf : wfElems issues = true) :
    wfJson (Json.obj (analysisFields score summary issues)) = true := by
  simp [analysisFields, wfJson, wfMembers, keysNodupB, hwf]

theorem stringifyAnalysis_shape (score : Int) (summary : String) (issues : List Json) :
    stringifyAnalysis score summary issues
      = '\x7b' :: (stringifyFields (analysisFields score summary issues) ++ ['\x7d']) := rfl

theorem jsTrim_stringifyAnalysis (score : Int) (summary : String) (issues : List Json) :
    jsTrim (stringifyAnalysis score summary issues)
      = stringifyAnalysis score summary issues := by
  apply jsTrim_eq_self
  · intro c t h
    rw [stringifyAnalysis_shape] at h
    cases h
    decide
  · intro c h
    rw [stringifyAnalysis_shape, getLast_cons_concat] at h
    cases h
    decide

theorem endsL_stringifyAnalysis (score : Int) (summary : String) (issues : List Json) :
    endsL (stringifyAnalysis score summary issues) ['\x7d'] = true := by
  rw [stringifyAnalysis_shape]
  unfold endsL
  apply List.isSuffixOf_iff_suffix.mpr
  rw [show '\x7b' :: (stringifyFields (analysisFields score summary issues) ++ ['\x7d'])
      = ('\x7b' :: stringifyFields (analysisFields score summary issues)) ++ ['\x7d'] from rfl]
  exact List.suffix_append _ _

theorem isValidShape_analysis (score : Int) (summary : String) (issues : List Json) :
    isValidShape (Json.obj (analysisFields score summary issues)) = true := rfl

/-- C7: round-trip — for every analysis result `{score, summary, issues}` with
a numeric score, a string summary and an array of issues (well-formed: no JS
object in it carries duplicate keys), `recover` applied to its JSON
serialization returns exactly that value: no field is altered, and in
particular a score outside 0–100 (see the witness, score 150) is returned
as-is without clamping. -/
theorem recover_roundtrip (score : Int) (summary : String) (issues : List Json)
    (hwf : wfElems issues = true) :
    recover ⟨stringifyAnalysis score summary issues⟩
      = Json.obj (analysisFields score summary issues) := by
  have htrim := jsTrim_stringifyAnalysis score summary issues
  have hend := endsL_stringifyAnalysis score summary issues
  have hparse : parseJsonText (stringifyAnalysis score summary issues)
      = .ok (Json.obj (analysisFields score summary issues)) :=
    parseJsonText_stringify _ (wf_analysis score summary issues hwf)
  have hst3 : startsL (stringifyAnalysis score summary issues) "```".data = false := by
    rw [stringifyAnalysis_shape,
      show "```".data = btChar :: (btChar :: [btChar]) from rfl]
    exact startsL_cons_ne _ _ _ _ (by decide)
  have hstq : startsL (stringifyAnalysis score summary issues) ['"'] = false := by
    rw [stringifyAnalysis_shape]
    exact startsL_cons_ne _ _ _ _ (by decide)
  unfold recover
  rw [show (String.mk (stringifyAnalysis score summary issues)).data
      = stringifyAnalysis score summary issues from rfl]
  rw [htrim]
  unfold fenceStage
  rw [hst3, if_neg (by simp)]
  unfold recoverStage2
  dsimp only
  rw [htrim, hend]
  simp only [Bool.true_or, Bool.not_true]
  rw [if_neg (by simp)]
  rw [hstq]
  simp only [Bool.false_and]
  rw [if_neg (by simp)]
  dsimp only
  rw [hparse]
  dsimp only
  unfold validateShape
  rw [if_pos (isValidShape_analysis score summary issues)]

/-- Witness for C7 at a concrete input with score 150: the out-of-range score
round-trips unclamped. -/
theorem recover_roundtrip_witness :
    wfElems [] = true
      ∧ recover ⟨stringifyAnalysis 150 "ok" []⟩
          = Json.obj (analysisFields 150 "ok" []) :=
  ⟨by decide, recover_roundtrip 150 "ok" [] (by decide)⟩
